import Mathlib

set_option maxRecDepth 8000

/-! Shallow embedding of the bincrc_codec crate (src/lib.rs): a streaming
byte-level frame codec.  Bytes are natural numbers (the Rust code works on
u8, so reachable values are below 256); the fixed-capacity `GenericArray`
buffer of capacity N becomes a list of length N, reads become `List.getD`
with default 0 and writes become `List.set`.  The u16 CRC accumulator is a
natural number kept below 65536 by explicit reduction modulo 65536. -/

/-- One shift-and-xor round of the CRC-16/XMODEM bit loop (polynomial
0x1021 = 4129) on a 16-bit accumulator represented as a natural number. -/
def crcStep (c : ℕ) : ℕ :=
  if 32768 ≤ c then ((c * 2) ^^^ 4129) % 65536 else (c * 2) % 65536

/-- Feed one input byte into the CRC-16/XMODEM accumulator: xor the byte into
the high half, then run eight bit rounds (the crc16 crate's XMODEM mode). -/
def crc16_update (c b : ℕ) : ℕ := crcStep^[8] (c ^^^ (b * 256))

/-- CRC-16/XMODEM of a byte sequence, initial value 0, no reflection. -/
def crc16_xmodem (data : List ℕ) : ℕ := data.foldl crc16_update 0

/-- Result of one frame-scanner attempt, mirroring `DecodeResult` in the
source; `Consumed` carries the total wire length to advance over and the
payload range [start, stop) in the buffer. -/
inductive DecodeResult where
  | NeedMoreBytes
  | InvalidData
  | Consumed (count : ℕ) (start stop : ℕ)
deriving DecidableEq

/-- Encoder-path error values of the codec (`BinCrcError` in the source;
the std-only `Io` variant belongs to the transport adapter, not the core). -/
inductive BinCrcError where
  | InvalidLength
  | NotEnoughSpace
  | TooBig
deriving DecidableEq

deriving instance DecidableEq for Except

/-- Decoder state `BinCrc<N>`: fixed buffer of capacity N plus the read and
write cursors and the cached shortfall hint `bytes_left`. -/
structure BinCrc where
  buffer : List ℕ
  read_idx : ℕ
  write_idx : ℕ
  bytes_left : ℕ
deriving DecidableEq

/-- Fresh decoder (`BinCrc::new`): zeroed buffer of capacity N, cursors 0. -/
def BinCrc.new (N : ℕ) : BinCrc := ⟨List.replicate N 0, 0, 0, 0⟩

/-- Compaction step of `eat_byte`: move the pending window
[read, read + pending) to the front of the buffer; bytes from index pending
on keep their old values (memmove semantics of the source's pointer copy). -/
def compact (buf : List ℕ) (read pending : ℕ) : List ℕ :=
  (buf.drop read).take pending ++ buf.drop pending

/-- Tail of the frame scanner, from the point where the header has been fully
decoded into frame_len: capacity check, frame-completeness check, terminator
check and CRC comparison, exactly as in `decode_frame` after the `frame_len`
binding (b0 is the selector byte, 2 or 3, which is also the header length). -/
def decode_tail (N : ℕ) (s : BinCrc) (data_len b0 frame_len : ℕ) :
    BinCrc × DecodeResult :=
  if N < frame_len then ({ s with bytes_left := 0 }, .InvalidData)
  else if data_len < frame_len + b0 + 3 then
    ({ s with bytes_left := frame_len + b0 + 3 - data_len }, .NeedMoreBytes)
  else if s.buffer.getD (s.read_idx + b0 + frame_len + 2) 0 ≠ 3 then
    ({ s with bytes_left := 0 }, .InvalidData)
  else if crc16_xmodem ((s.buffer.drop (s.read_idx + b0)).take frame_len) =
      256 * s.buffer.getD (s.read_idx + frame_len + b0) 0 +
        s.buffer.getD (s.read_idx + frame_len + b0 + 1) 0 then
    ({ s with bytes_left := 0 }, .Consumed (frame_len + b0 + 3) (s.read_idx + b0)
      (s.read_idx + b0 + frame_len))
  else ({ s with bytes_left := 0 }, .InvalidData)

/-- Frame scanner `decode_frame`: decide whether a complete valid frame starts
at read_idx given data_len buffered bytes; the only state it mutates is
`bytes_left` (the source stores 0 into it at entry of the non-empty case and
the NeedMoreBytes paths overwrite it with the shortfall; here the final value
is written into each outcome's state explicitly). -/
def decode_frame (N : ℕ) (s : BinCrc) (data_len : ℕ) : BinCrc × DecodeResult :=
  if data_len = 0 then ({ s with bytes_left := 1 }, .NeedMoreBytes)
  else if s.buffer.getD s.read_idx 0 ≠ 2 ∧ s.buffer.getD s.read_idx 0 ≠ 3 ∧
      s.buffer.getD s.read_idx 0 ≠ 4 then
    ({ s with bytes_left := 0 }, .InvalidData)
  else if s.buffer.getD s.read_idx 0 = 4 then ({ s with bytes_left := 0 }, .InvalidData)
  else if data_len < s.buffer.getD s.read_idx 0 then
    ({ s with bytes_left := s.buffer.getD s.read_idx 0 - data_len }, .NeedMoreBytes)
  else if s.buffer.getD s.read_idx 0 = 2 then
    if s.buffer.getD (s.read_idx + 1) 0 = 0 then ({ s with bytes_left := 0 }, .InvalidData)
    else decode_tail N s data_len (s.buffer.getD s.read_idx 0)
      (s.buffer.getD (s.read_idx + 1) 0)
  else
    if 256 * s.buffer.getD (s.read_idx + 1) 0 + s.buffer.getD (s.read_idx + 2) 0 < 255 then
      ({ s with bytes_left := 0 }, .InvalidData)
    else decode_tail N s data_len (s.buffer.getD s.read_idx 0)
      (256 * s.buffer.getD (s.read_idx + 1) 0 + s.buffer.getD (s.read_idx + 2) 0)

/-- The scanning loop of `eat_byte`, with explicit fuel equal to the iteration
count of the source's for loop (`bytes_pending` at loop entry); returns the
final state, the payloads passed to the sink in order, and whether the loop
exited early through the NeedMoreBytes return. -/
def scanLoop (N : ℕ) : ℕ → BinCrc → ℕ → List (List ℕ) →
    BinCrc × List (List ℕ) × Bool
  | 0, s, _, acc => (s, acc, false)
  | fuel + 1, s, lookahead_len, acc =>
    match decode_frame N s lookahead_len with
    | (s1, .NeedMoreBytes) => (s1, acc, true)
    | (s1, .InvalidData) =>
      scanLoop N fuel { s1 with read_idx := s1.read_idx + 1 }
        (lookahead_len - 1) acc
    | (s1, .Consumed count start stop) =>
      scanLoop N fuel { s1 with read_idx := s1.read_idx + count }
        (lookahead_len - count) (acc ++ [(s1.buffer.drop start).take (stop - start)])

/-- Ingestion step `eat_byte`: absorb one byte, resetting on saturation or
compacting a full buffer first, then either take the cached `bytes_left`
shortcut or run the scanning loop.  Returns the new state and the payloads
handed to the sink during this call. -/
def eat_byte (N : ℕ) (s : BinCrc) (byte : ℕ) : BinCrc × List (List ℕ) :=
  let bytes_pending := s.write_idx - s.read_idx
  if N ≤ bytes_pending then
    (⟨s.buffer.set 0 byte, 0, 1, 0⟩, [])
  else
    let s1 : BinCrc :=
      if N ≤ s.write_idx then
        { s with buffer := compact s.buffer s.read_idx bytes_pending,
                 read_idx := 0, write_idx := bytes_pending }
      else s
    let s2 : BinCrc := { s1 with buffer := s1.buffer.set s1.write_idx byte,
                                 write_idx := s1.write_idx + 1 }
    let bp1 := bytes_pending + 1
    if 1 < s2.bytes_left then ({ s2 with bytes_left := s2.bytes_left - 1 }, [])
    else
      match scanLoop N bp1 s2 bp1 [] with
      | (s3, out, early) =>
        if early then (s3, out)
        else if bp1 = 0 then ({ s3 with read_idx := 0, write_idx := 0 }, out)
        else (s3, out)

/-- Variant of `eat_byte` that omits the `bytes_left > 1` early return and
always runs the scanning loop; the refinement claim compares the two. -/
def eat_byte_ns (N : ℕ) (s : BinCrc) (byte : ℕ) : BinCrc × List (List ℕ) :=
  let bytes_pending := s.write_idx - s.read_idx
  if N ≤ bytes_pending then
    (⟨s.buffer.set 0 byte, 0, 1, 0⟩, [])
  else
    let s1 : BinCrc :=
      if N ≤ s.write_idx then
        { s with buffer := compact s.buffer s.read_idx bytes_pending,
                 read_idx := 0, write_idx := bytes_pending }
      else s
    let s2 : BinCrc := { s1 with buffer := s1.buffer.set s1.write_idx byte,
                                 write_idx := s1.write_idx + 1 }
    let bp1 := bytes_pending + 1
    match scanLoop N bp1 s2 bp1 [] with
    | (s3, out, early) =>
      if early then (s3, out)
      else if bp1 = 0 then ({ s3 with read_idx := 0, write_idx := 0 }, out)
      else (s3, out)

/-- Feed a byte sequence one byte at a time through `eat_byte`, collecting all
payloads emitted to the sink, in order. -/
def feed (N : ℕ) (s : BinCrc) (bytes : List ℕ) : BinCrc × List (List ℕ) :=
  bytes.foldl (fun st b =>
    ((eat_byte N st.1 b).1, st.2 ++ (eat_byte N st.1 b).2)) (s, [])

/-- Feed through the no-shortcut variant `eat_byte_ns`. -/
def feed_ns (N : ℕ) (s : BinCrc) (bytes : List ℕ) : BinCrc × List (List ℕ) :=
  bytes.foldl (fun st b =>
    ((eat_byte_ns N st.1 b).1, st.2 ++ (eat_byte_ns N st.1 b).2)) (s, [])

/-- Encoder `size_hint`: exact wire size of a frame of the given payload
length, with the hardcoded 512 upper bound of the source. -/
def size_hint (frame_len : ℕ) : Except BinCrcError ℕ :=
  if frame_len ≤ 255 then .ok (2 + frame_len + 3)
  else if 256 ≤ frame_len ∧ frame_len ≤ 512 then .ok (3 + frame_len + 3)
  else .error .TooBig

/-- Encoder `commit_frame`: serialize a payload into the destination buffer.
The Rust function mutates a `&mut [u8]` and returns `Result<(), _>`; here the
pair carries the result and the destination buffer after the call (on the
error paths no write has happened yet, so the buffer is returned as given).
The source first selects `(bytes_required, first_byte)` from the payload
length, then performs the single capacity check and the contiguous writes;
both arms of the selection are written out here.  All writes are contiguous
from index 0, so the written region is the literal byte sequence followed by
the untouched tail of the destination. -/
def commit_frame (N : ℕ) (frame buf : List ℕ) :
    Except BinCrcError Unit × List ℕ :=
  if frame.length ≤ 255 then
    if buf.length < 2 + frame.length + 3 then (.error .NotEnoughSpace, buf)
    else
      (.ok (), 2 :: [frame.length % 256] ++ frame ++
        [crc16_xmodem frame / 256 % 256, crc16_xmodem frame % 256, 3] ++
        buf.drop (2 + frame.length + 3))
  else if 256 ≤ frame.length ∧ frame.length ≤ N then
    if buf.length < 3 + frame.length + 3 then (.error .NotEnoughSpace, buf)
    else
      (.ok (), 3 :: [frame.length % 65536 / 256, frame.length % 256] ++ frame ++
        [crc16_xmodem frame / 256 % 256, crc16_xmodem frame % 256, 3] ++
        buf.drop (3 + frame.length + 3))
  else (.error .InvalidLength, buf)

/-- The wire image `commit_frame` produces for a payload: selector byte,
length field (1 byte below 256, else 2 bytes big-endian), payload, big-endian
CRC-16/XMODEM, terminator 3. -/
def wire_frame (frame : List ℕ) : List ℕ :=
  (if frame.length ≤ 255 then [2, frame.length % 256]
   else [3, frame.length % 65536 / 256, frame.length % 256]) ++ frame ++
    [crc16_xmodem frame / 256 % 256, crc16_xmodem frame % 256, 3]

/-- A frame encoded with the 2-byte header form (selector 3) irrespective of
the payload size; used to state the length-boundary claims about frames the
encoder itself would not produce. -/
def wire_frame2 (frame : List ℕ) : List ℕ :=
  [3, frame.length % 65536 / 256, frame.length % 256] ++ frame ++
    [crc16_xmodem frame / 256 % 256, crc16_xmodem frame % 256, 3]

/-- Header length selected for a payload (1 selector byte plus 1 or 2 length
bytes), matching both `commit_frame` and the decoder's b0 field. -/
def hdrLen (p : List ℕ) : ℕ := if p.length ≤ 255 then 2 else 3

/-- The payload length the scanner would read from the header at read_idx. -/
def frameLenAt (s : BinCrc) : ℕ :=
  if s.buffer.getD s.read_idx 0 = 2 then s.buffer.getD (s.read_idx + 1) 0
  else 256 * s.buffer.getD (s.read_idx + 1) 0 + s.buffer.getD (s.read_idx + 2) 0

/-- Bounds-checked read, failing exactly when a Rust index would panic. -/
def readChk (buf : List ℕ) (i : ℕ) : Option ℕ := buf[i]?

/-- Bounds-checked write, failing exactly when a Rust index-assignment would
panic. -/
def setChk (buf : List ℕ) (i v : ℕ) : Option (List ℕ) :=
  if i < buf.length then some (buf.set i v) else none

/-- Bounds-checked slice buf[a..b], failing when the range is not contained
in the buffer. -/
def sliceChk (buf : List ℕ) (a b : ℕ) : Option (List ℕ) :=
  if a ≤ b ∧ b ≤ buf.length then some ((buf.drop a).take (b - a)) else none

/-- Bounds-checked compaction, failing when the copied window is not
contained in the buffer. -/
def compactChk (buf : List ℕ) (read pending : ℕ) : Option (List ℕ) :=
  if read + pending ≤ buf.length then some (compact buf read pending) else none

/-- Bounds-checked `decode_tail`: same computation, but every buffer access
is checked; none means the unchecked code would access out of bounds. -/
def decode_tail_chk (N : ℕ) (s : BinCrc) (data_len b0 frame_len : ℕ) :
    Option (BinCrc × DecodeResult) :=
  if N < frame_len then some ({ s with bytes_left := 0 }, .InvalidData)
  else if data_len < frame_len + b0 + 3 then
    some ({ s with bytes_left := frame_len + b0 + 3 - data_len }, .NeedMoreBytes)
  else
    match readChk s.buffer (s.read_idx + b0 + frame_len + 2) with
    | none => none
    | some stopByte =>
      if stopByte ≠ 3 then some ({ s with bytes_left := 0 }, .InvalidData)
      else
        match readChk s.buffer (s.read_idx + frame_len + b0),
              readChk s.buffer (s.read_idx + frame_len + b0 + 1),
              sliceChk s.buffer (s.read_idx + b0) (s.read_idx + b0 + frame_len) with
        | some c1, some c2, some payload =>
          if crc16_xmodem payload = 256 * c1 + c2 then
            some ({ s with bytes_left := 0 },
              .Consumed (frame_len + b0 + 3) (s.read_idx + b0)
                (s.read_idx + b0 + frame_len))
          else some ({ s with bytes_left := 0 }, .InvalidData)
        | _, _, _ => none

/-- Bounds-checked `decode_frame`. -/
def decode_frame_chk (N : ℕ) (s : BinCrc) (data_len : ℕ) :
    Option (BinCrc × DecodeResult) :=
  if data_len = 0 then some ({ s with bytes_left := 1 }, .NeedMoreBytes)
  else
    match readChk s.buffer s.read_idx with
    | none => none
    | some b0 =>
      if b0 ≠ 2 ∧ b0 ≠ 3 ∧ b0 ≠ 4 then some ({ s with bytes_left := 0 }, .InvalidData)
      else if b0 = 4 then some ({ s with bytes_left := 0 }, .InvalidData)
      else if data_len < b0 then
        some ({ s with bytes_left := b0 - data_len }, .NeedMoreBytes)
      else if b0 = 2 then
        match readChk s.buffer (s.read_idx + 1) with
        | none => none
        | some len =>
          if len = 0 then some ({ s with bytes_left := 0 }, .InvalidData)
          else decode_tail_chk N s data_len b0 len
      else
        match readChk s.buffer (s.read_idx + 1),
              readChk s.buffer (s.read_idx + 2) with
        | some h1, some h2 =>
          if 256 * h1 + h2 < 255 then some ({ s with bytes_left := 0 }, .InvalidData)
          else decode_tail_chk N s data_len b0 (256 * h1 + h2)
        | _, _ => none

/-- Bounds-checked scanning loop; also checks the payload slice passed to the
sink. -/
def scanLoopChk (N : ℕ) : ℕ → BinCrc → ℕ → List (List ℕ) →
    Option (BinCrc × List (List ℕ) × Bool)
  | 0, s, _, acc => some (s, acc, false)
  | fuel + 1, s, lookahead_len, acc =>
    match decode_frame_chk N s lookahead_len with
    | none => none
    | some (s1, .NeedMoreBytes) => some (s1, acc, true)
    | some (s1, .InvalidData) =>
      scanLoopChk N fuel { s1 with read_idx := s1.read_idx + 1 }
        (lookahead_len - 1) acc
    | some (s1, .Consumed count start stop) =>
      match sliceChk s1.buffer start stop with
      | none => none
      | some payload =>
        scanLoopChk N fuel { s1 with read_idx := s1.read_idx + count }
          (lookahead_len - count) (acc ++ [payload])

/-- Bounds-checked `eat_byte`: none exactly when some buffer access of the
unchecked code would fall outside the N-byte array. -/
def eat_byte_chk (N : ℕ) (s : BinCrc) (byte : ℕ) :
    Option (BinCrc × List (List ℕ)) :=
  let bytes_pending := s.write_idx - s.read_idx
  if N ≤ bytes_pending then
    match setChk s.buffer 0 byte with
    | none => none
    | some buf => some (⟨buf, 0, 1, 0⟩, [])
  else
    let step1 : Option BinCrc :=
      if N ≤ s.write_idx then
        match compactChk s.buffer s.read_idx bytes_pending with
        | none => none
        | some buf =>
          some { s with buffer := buf, read_idx := 0, write_idx := bytes_pending }
      else some s
    match step1 with
    | none => none
    | some s1 =>
      match setChk s1.buffer s1.write_idx byte with
      | none => none
      | some buf =>
        let s2 : BinCrc := { s1 with buffer := buf, write_idx := s1.write_idx + 1 }
        let bp1 := bytes_pending + 1
        if 1 < s2.bytes_left then
          some ({ s2 with bytes_left := s2.bytes_left - 1 }, [])
        else
          match scanLoopChk N bp1 s2 bp1 [] with
          | none => none
          | some (s3, out, early) =>
            if early then some (s3, out)
            else if bp1 = 0 then some ({ s3 with read_idx := 0, write_idx := 0 }, out)
            else some (s3, out)

/-- Decoder states reachable from a fresh decoder by feeding bytes. -/
inductive Reachable (N : ℕ) : BinCrc → Prop where
  | new : Reachable N (BinCrc.new N)
  | step (s : BinCrc) (b : ℕ) : Reachable N s → Reachable N (eat_byte N s b).1

/-- Structural well-formedness of a decoder state: ordered cursors, write
cursor within capacity (within 1 in the degenerate capacity-0 case, where the
saturation reset still stores one byte index), and a buffer whose physical
length is the capacity N. -/
def wf (N : ℕ) (s : BinCrc) : Prop :=
  s.read_idx ≤ s.write_idx ∧ s.write_idx ≤ max N 1 ∧ s.buffer.length = N

/-! Helper lemmas: CRC bounds, list indexing, and structural facts about the
scanner, shared by the claim theorems below. -/

theorem crcStep_lt (c : ℕ) : crcStep c < 65536 := by
  unfold crcStep
  split_ifs <;> exact Nat.mod_lt _ (by norm_num)

theorem iterate_crcStep_lt (n x : ℕ) (h : 0 < n) : crcStep^[n] x < 65536 := by
  cases n with
  | zero => omega
  | succ m => rw [Function.iterate_succ_apply']; exact crcStep_lt _

theorem crc16_update_lt (c b : ℕ) : crc16_update c b < 65536 :=
  iterate_crcStep_lt 8 _ (by norm_num)

theorem foldl_crc_lt (l : List ℕ) : ∀ c, c < 65536 → l.foldl crc16_update c < 65536 := by
  induction l with
  | nil => intro c hc; simpa using hc
  | cons y ys ih => intro c hc; rw [List.foldl_cons]; exact ih _ (crc16_update_lt c y)

theorem crc16_lt (data : List ℕ) : crc16_xmodem data < 65536 :=
  foldl_crc_lt data 0 (by norm_num)

theorem crc_split (c : ℕ) (h : c < 65536) :
    256 * (c / 256 % 256) + c % 256 = c := by
  have h1 : c / 256 < 256 := by omega
  rw [Nat.mod_eq_of_lt h1]
  omega

theorem getD_some (l : List ℕ) (i : ℕ) (h : i < l.length) :
    l[i]? = some (l.getD i 0) := by
  rw [List.getElem?_eq_getElem h, List.getD_eq_getElem?_getD,
    List.getElem?_eq_getElem h]
  rfl

theorem eq_of_getD (xs ys : List ℕ) (hlen : xs.length = ys.length)
    (h : ∀ i, i < xs.length → xs.getD i 0 = ys.getD i 0) : xs = ys := by
  refine List.ext_getElem hlen ?_
  intro n h1 h2
  have := h n h1
  rwa [List.getD_eq_getElem?_getD, List.getD_eq_getElem?_getD,
    List.getElem?_eq_getElem h1, List.getElem?_eq_getElem h2] at this

theorem set_append_len (xs ys : List ℕ) (y v : ℕ) :
    (xs ++ y :: ys).set xs.length v = xs ++ v :: ys := by
  induction xs with
  | nil => rfl
  | cons a as ih => simp [List.set, ih]

theorem getD_set_ne (l : List ℕ) (i j v : ℕ) (h : i ≠ j) :
    (l.set i v).getD j 0 = l.getD j 0 := by
  rw [List.getD_eq_getElem?_getD, List.getD_eq_getElem?_getD,
    List.getElem?_set_ne h]

theorem take_succ_getD (w : List ℕ) (k : ℕ) (h : k < w.length) :
    w.take (k + 1) = w.take k ++ [w.getD k 0] := by
  rw [List.take_succ, List.getElem?_eq_getElem h, List.getD_eq_getElem?_getD,
    List.getElem?_eq_getElem h]
  rfl

theorem prefixBuf_getD (w : List ℕ) (k i N : ℕ) (hik : i < k)
    (hkw : k ≤ w.length) :
    (w.take k ++ List.replicate (N - k) 0).getD i 0 = w.getD i 0 := by
  have hlen : (w.take k).length = k := by
    rw [List.length_take]; omega
  rw [List.getD_append _ _ _ _ (by omega)]
  rw [List.getD_eq_getElem?_getD, List.getD_eq_getElem?_getD]
  have hi : i < w.length := by omega
  rw [List.getElem?_eq_getElem (by omega : i < (w.take k).length),
    List.getElem?_eq_getElem hi]
  simp [List.getElem_take]

theorem prefixBuf_length (w : List ℕ) (k N : ℕ) (hk : k ≤ N)
    (hkw : k ≤ w.length) :
    (w.take k ++ List.replicate (N - k) 0).length = N := by
  simp [List.length_take]
  omega

theorem prefixBuf_set (w : List ℕ) (k N : ℕ) (hkN : k < N) (hkw : k < w.length) :
    (w.take k ++ List.replicate (N - k) 0).set k (w.getD k 0) =
      w.take (k + 1) ++ List.replicate (N - (k + 1)) 0 := by
  have hrep : List.replicate (N - k) (0 : ℕ) = 0 :: List.replicate (N - (k + 1)) 0 := by
    have : N - k = (N - (k + 1)) + 1 := by omega
    rw [this, List.replicate_succ]
  have hlen : (w.take k).length = k := by rw [List.length_take]; omega
  have h2 := set_append_len (w.take k) (List.replicate (N - (k + 1)) 0) 0 (w.getD k 0)
  rw [hlen] at h2
  rw [hrep, h2, take_succ_getD w k hkw]
  simp

theorem compact_length (buf : List ℕ) (read pending : ℕ)
    (h : read + pending ≤ buf.length) :
    (compact buf read pending).length = buf.length := by
  unfold compact
  simp [List.length_take, List.length_drop]
  omega

theorem compact_getD (buf : List ℕ) (read pending i : ℕ) (hi : i < pending)
    (h : read + pending ≤ buf.length) :
    (compact buf read pending).getD i 0 = buf.getD (read + i) 0 := by
  unfold compact
  have hlen : ((buf.drop read).take pending).length = pending := by
    simp [List.length_take, List.length_drop]; omega
  rw [List.getD_append _ _ _ _ (by omega)]
  rw [List.getD_eq_getElem?_getD, List.getD_eq_getElem?_getD]
  have h1 : i < ((buf.drop read).take pending).length := by omega
  have h2 : read + i < buf.length := by omega
  rw [List.getElem?_eq_getElem h1, List.getElem?_eq_getElem h2]
  simp [List.getElem_take, List.getElem_drop]

theorem decode_tail_shape (N : ℕ) (s : BinCrc) (d b0 fl : ℕ) :
    ∃ bl, (decode_tail N s d b0 fl).1 = { s with bytes_left := bl } := by
  unfold decode_tail
  split_ifs <;> exact ⟨_, rfl⟩

theorem decode_shape (N : ℕ) (s : BinCrc) (d : ℕ) :
    ∃ bl, (decode_frame N s d).1 = { s with bytes_left := bl } := by
  unfold decode_frame
  split_ifs <;>
    first
      | exact ⟨_, rfl⟩
      | exact decode_tail_shape N s d (s.buffer.getD s.read_idx 0)
          (s.buffer.getD (s.read_idx + 1) 0)
      | exact decode_tail_shape N s d (s.buffer.getD s.read_idx 0)
          (256 * s.buffer.getD (s.read_idx + 1) 0 + s.buffer.getD (s.read_idx + 2) 0)

theorem decode_buffer (N : ℕ) (s : BinCrc) (d : ℕ) :
    (decode_frame N s d).1.buffer = s.buffer := by
  obtain ⟨bl, h⟩ := decode_shape N s d
  rw [h]

theorem decode_read (N : ℕ) (s : BinCrc) (d : ℕ) :
    (decode_frame N s d).1.read_idx = s.read_idx := by
  obtain ⟨bl, h⟩ := decode_shape N s d
  rw [h]

theorem decode_write (N : ℕ) (s : BinCrc) (d : ℕ) :
    (decode_frame N s d).1.write_idx = s.write_idx := by
  obtain ⟨bl, h⟩ := decode_shape N s d
  rw [h]

theorem decode_inv (N : ℕ) (s : BinCrc) (d : ℕ) (r : BinCrc × DecodeResult)
    (hr : decode_frame N s d = r) :
    (d = 0 ∧ r = ({ s with bytes_left := 1 }, .NeedMoreBytes)) ∨
    (0 < d ∧ r.1 = { s with bytes_left := 0 } ∧ r.2 = .InvalidData) ∨
    (0 < d ∧ (s.buffer.getD s.read_idx 0 = 2 ∨ s.buffer.getD s.read_idx 0 = 3) ∧
      d < s.buffer.getD s.read_idx 0 ∧
      r = ({ s with bytes_left := s.buffer.getD s.read_idx 0 - d }, .NeedMoreBytes)) ∨
    (0 < d ∧ s.buffer.getD s.read_idx 0 = 2 ∧ s.buffer.getD s.read_idx 0 ≤ d ∧
      s.buffer.getD (s.read_idx + 1) 0 ≠ 0 ∧
      s.buffer.getD (s.read_idx + 1) 0 ≤ N ∧
      d < s.buffer.getD (s.read_idx + 1) 0 + s.buffer.getD s.read_idx 0 + 3 ∧
      r = ({ s with bytes_left := s.buffer.getD (s.read_idx + 1) 0 +
            s.buffer.getD s.read_idx 0 + 3 - d }, .NeedMoreBytes)) ∨
    (0 < d ∧ s.buffer.getD s.read_idx 0 = 2 ∧ s.buffer.getD s.read_idx 0 ≤ d ∧
      s.buffer.getD (s.read_idx + 1) 0 ≠ 0 ∧
      s.buffer.getD (s.read_idx + 1) 0 ≤ N ∧
      s.buffer.getD (s.read_idx + 1) 0 + s.buffer.getD s.read_idx 0 + 3 ≤ d ∧
      r = ({ s with bytes_left := 0 },
        .Consumed (s.buffer.getD (s.read_idx + 1) 0 + s.buffer.getD s.read_idx 0 + 3)
          (s.read_idx + s.buffer.getD s.read_idx 0)
          (s.read_idx + s.buffer.getD s.read_idx 0 + s.buffer.getD (s.read_idx + 1) 0))) ∨
    (0 < d ∧ s.buffer.getD s.read_idx 0 = 3 ∧ s.buffer.getD s.read_idx 0 ≤ d ∧
      255 ≤ 256 * s.buffer.getD (s.read_idx + 1) 0 + s.buffer.getD (s.read_idx + 2) 0 ∧
      256 * s.buffer.getD (s.read_idx + 1) 0 + s.buffer.getD (s.read_idx + 2) 0 ≤ N ∧
      d < 256 * s.buffer.getD (s.read_idx + 1) 0 + s.buffer.getD (s.read_idx + 2) 0 +
        s.buffer.getD s.read_idx 0 + 3 ∧
      r = ({ s with bytes_left := 256 * s.buffer.getD (s.read_idx + 1) 0 +
            s.buffer.getD (s.read_idx + 2) 0 + s.buffer.getD s.read_idx 0 + 3 - d },
        .NeedMoreBytes)) ∨
    (0 < d ∧ s.buffer.getD s.read_idx 0 = 3 ∧ s.buffer.getD s.read_idx 0 ≤ d ∧
      255 ≤ 256 * s.buffer.getD (s.read_idx + 1) 0 + s.buffer.getD (s.read_idx + 2) 0 ∧
      256 * s.buffer.getD (s.read_idx + 1) 0 + s.buffer.getD (s.read_idx + 2) 0 ≤ N ∧
      256 * s.buffer.getD (s.read_idx + 1) 0 + s.buffer.getD (s.read_idx + 2) 0 +
        s.buffer.getD s.read_idx 0 + 3 ≤ d ∧
      r = ({ s with bytes_left := 0 },
        .Consumed (256 * s.buffer.getD (s.read_idx + 1) 0 +
            s.buffer.getD (s.read_idx + 2) 0 + s.buffer.getD s.read_idx 0 + 3)
          (s.read_idx + s.buffer.getD s.read_idx 0)
          (s.read_idx + s.buffer.getD s.read_idx 0 +
            (256 * s.buffer.getD (s.read_idx + 1) 0 + s.buffer.getD (s.read_idx + 2) 0)))) := by
  delta decode_frame at hr
  split at hr
  · subst hr; exact Or.inl ⟨by omega, rfl⟩
  · split at hr
    · subst hr; exact Or.inr (Or.inl ⟨by omega, rfl, rfl⟩)
    · split at hr
      · subst hr; exact Or.inr (Or.inl ⟨by omega, rfl, rfl⟩)
      · split at hr
        · subst hr; exact Or.inr (Or.inr (Or.inl ⟨by omega, by tauto, by omega, rfl⟩))
        · split at hr
          · split at hr
            · subst hr; exact Or.inr (Or.inl ⟨by omega, rfl, rfl⟩)
            · delta decode_tail at hr
              split at hr
              · subst hr; exact Or.inr (Or.inl ⟨by omega, rfl, rfl⟩)
              · split at hr
                · subst hr
                  exact Or.inr (Or.inr (Or.inr (Or.inl
                    ⟨by omega, by tauto, by omega, by tauto, by omega, by omega, rfl⟩)))
                · split at hr
                  · subst hr; exact Or.inr (Or.inl ⟨by omega, rfl, rfl⟩)
                  · split at hr
                    · subst hr
                      exact Or.inr (Or.inr (Or.inr (Or.inr (Or.inl
                        ⟨by omega, by tauto, by omega, by tauto, by omega, by omega, rfl⟩))))
                    · subst hr; exact Or.inr (Or.inl ⟨by omega, rfl, rfl⟩)
          · split at hr
            · subst hr; exact Or.inr (Or.inl ⟨by omega, rfl, rfl⟩)
            · delta decode_tail at hr
              split at hr
              · subst hr; exact Or.inr (Or.inl ⟨by omega, rfl, rfl⟩)
              · split at hr
                · subst hr
                  exact Or.inr (Or.inr (Or.inr (Or.inr (Or.inr (Or.inl
                    ⟨by omega, by tauto, by omega, by omega, by omega, by omega, rfl⟩)))))
                · split at hr
                  · subst hr; exact Or.inr (Or.inl ⟨by omega, rfl, rfl⟩)
                  · split at hr
                    · subst hr
                      exact Or.inr (Or.inr (Or.inr (Or.inr (Or.inr (Or.inr
                        ⟨by omega, by tauto, by omega, by omega, by omega, by omega, rfl⟩)))))
                    · subst hr; exact Or.inr (Or.inl ⟨by omega, rfl, rfl⟩)


theorem hdrLen_pos (p : List ℕ) : 2 ≤ hdrLen p ∧ hdrLen p ≤ 3 := by
  unfold hdrLen; split_ifs <;> omega

theorem wire_frame_parts (p : List ℕ) :
    wire_frame p =
      (if p.length ≤ 255 then [2, p.length % 256]
       else [3, p.length % 65536 / 256, p.length % 256]) ++
      (p ++ [crc16_xmodem p / 256 % 256, crc16_xmodem p % 256, 3]) := by
  unfold wire_frame
  rw [List.append_assoc]

theorem wire_frame_length (p : List ℕ) :
    (wire_frame p).length = hdrLen p + p.length + 3 := by
  rw [wire_frame_parts]
  unfold hdrLen
  split_ifs <;> simp <;> omega

theorem wire_hdr_length (p : List ℕ) :
    (if p.length ≤ 255 then [2, p.length % 256]
     else [3, p.length % 65536 / 256, p.length % 256] : List ℕ).length = hdrLen p := by
  unfold hdrLen; split_ifs <;> rfl

theorem wire_getD_zero (p : List ℕ) :
    (wire_frame p).getD 0 0 = (if p.length ≤ 255 then 2 else 3) := by
  rw [wire_frame_parts]
  split_ifs with h <;> rfl

theorem wire_getD_one_1b (p : List ℕ) (h : p.length ≤ 255) :
    (wire_frame p).getD 1 0 = p.length % 256 := by
  rw [wire_frame_parts, if_pos h]
  rfl

theorem wire_getD_one_2b (p : List ℕ) (h : ¬p.length ≤ 255) :
    (wire_frame p).getD 1 0 = p.length % 65536 / 256 := by
  rw [wire_frame_parts, if_neg h]
  rfl

theorem wire_getD_two_2b (p : List ℕ) (h : ¬p.length ≤ 255) :
    (wire_frame p).getD 2 0 = p.length % 256 := by
  rw [wire_frame_parts, if_neg h]
  rfl

theorem wire_drop_hdr (p : List ℕ) :
    (wire_frame p).drop (hdrLen p) =
      p ++ [crc16_xmodem p / 256 % 256, crc16_xmodem p % 256, 3] := by
  rw [wire_frame_parts, ← wire_hdr_length p, List.drop_left]

theorem wire_payload_slice (p : List ℕ) :
    ((wire_frame p).drop (hdrLen p)).take p.length = p := by
  rw [wire_drop_hdr, List.take_left]

theorem wire_getD_tail (p : List ℕ) (i : ℕ) (hi : i < 3) :
    (wire_frame p).getD (hdrLen p + (p.length + i)) 0 =
      [crc16_xmodem p / 256 % 256, crc16_xmodem p % 256, 3].getD i 0 := by
  rw [wire_frame_parts, ← wire_hdr_length p]
  rw [List.getD_append_right _ _ _ _ (by rw [wire_hdr_length]; omega)]
  rw [wire_hdr_length]
  have h2 : hdrLen p + (p.length + i) - hdrLen p = p.length + i := by omega
  rw [h2, List.getD_append_right _ _ _ _ (by omega)]
  have h3 : p.length + i - p.length = i := by omega
  rw [h3]

theorem wire_getD_payload (p : List ℕ) (i : ℕ) (hi : i < p.length) :
    (wire_frame p).getD (hdrLen p + i) 0 = p.getD i 0 := by
  rw [wire_frame_parts, ← wire_hdr_length p]
  rw [List.getD_append_right _ _ _ _ (by rw [wire_hdr_length]; omega)]
  rw [wire_hdr_length]
  have h2 : hdrLen p + i - hdrLen p = i := by omega
  rw [h2, List.getD_append _ _ _ _ (by omega)]

theorem decode_invalid_facts (N : ℕ) (s : BinCrc) (d : ℕ)
    (h : (decode_frame N s d).2 = .InvalidData) :
    1 ≤ d ∧ (decode_frame N s d).1.bytes_left = 0 := by
  rcases decode_inv N s d _ rfl with
    ⟨h1, h2⟩ | ⟨h1, h2, h3⟩ | ⟨h1, h2, h3, h4⟩ | ⟨h1, h2, h3, h4, h5, h6, h7⟩ |
    ⟨h1, h2, h3, h4, h5, h6, h7⟩ | ⟨h1, h2, h3, h4, h5, h6, h7⟩ |
    ⟨h1, h2, h3, h4, h5, h6, h7⟩ <;>
    first
      | (constructor; omega; rw [h2])
      | (rw [h2] at h; simp at h)
      | (rw [h4] at h; simp at h)
      | (rw [h7] at h; simp at h)

theorem decode_consumed_facts (N : ℕ) (s : BinCrc) (d c a b : ℕ)
    (h : (decode_frame N s d).2 = .Consumed c a b) :
    (decode_frame N s d).1.bytes_left = 0 ∧ 1 ≤ c ∧ c ≤ d ∧
    s.read_idx ≤ a ∧ a ≤ b ∧ b + 3 ≤ s.read_idx + d := by
  rcases decode_inv N s d _ rfl with
    ⟨h1, h2⟩ | ⟨h1, h2, h3⟩ | ⟨h1, h2, h3, h4⟩ | ⟨h1, h2, h3, h4, h5, h6, h7⟩ |
    ⟨h1, h2, h3, h4, h5, h6, h7⟩ | ⟨h1, h2, h3, h4, h5, h6, h7⟩ |
    ⟨h1, h2, h3, h4, h5, h6, h7⟩
  · rw [h2] at h; simp at h
  · rw [h3] at h; simp at h
  · rw [h4] at h; simp at h
  · rw [h7] at h; simp at h
  · rw [h7] at h ⊢
    simp only [DecodeResult.Consumed.injEq] at h
    refine ⟨rfl, by omega, by omega, by omega, by omega, by omega⟩
  · rw [h7] at h; simp at h
  · rw [h7] at h ⊢
    simp only [DecodeResult.Consumed.injEq] at h
    refine ⟨rfl, by omega, by omega, by omega, by omega, by omega⟩

theorem decode_nmb_facts (N : ℕ) (s : BinCrc) (d : ℕ)
    (h : (decode_frame N s d).2 = .NeedMoreBytes) :
    (d = 0 ∧ (decode_frame N s d).1.bytes_left = 1) ∨
    (0 < d ∧ (s.buffer.getD s.read_idx 0 = 2 ∨ s.buffer.getD s.read_idx 0 = 3) ∧
      d < s.buffer.getD s.read_idx 0 ∧
      (decode_frame N s d).1.bytes_left = s.buffer.getD s.read_idx 0 - d) ∨
    (0 < d ∧ s.buffer.getD s.read_idx 0 = 2 ∧ s.buffer.getD s.read_idx 0 ≤ d ∧
      s.buffer.getD (s.read_idx + 1) 0 ≠ 0 ∧ s.buffer.getD (s.read_idx + 1) 0 ≤ N ∧
      d < s.buffer.getD (s.read_idx + 1) 0 + s.buffer.getD s.read_idx 0 + 3 ∧
      (decode_frame N s d).1.bytes_left =
        s.buffer.getD (s.read_idx + 1) 0 + s.buffer.getD s.read_idx 0 + 3 - d) ∨
    (0 < d ∧ s.buffer.getD s.read_idx 0 = 3 ∧ s.buffer.getD s.read_idx 0 ≤ d ∧
      255 ≤ 256 * s.buffer.getD (s.read_idx + 1) 0 + s.buffer.getD (s.read_idx + 2) 0 ∧
      256 * s.buffer.getD (s.read_idx + 1) 0 + s.buffer.getD (s.read_idx + 2) 0 ≤ N ∧
      d < 256 * s.buffer.getD (s.read_idx + 1) 0 + s.buffer.getD (s.read_idx + 2) 0 +
        s.buffer.getD s.read_idx 0 + 3 ∧
      (decode_frame N s d).1.bytes_left =
        256 * s.buffer.getD (s.read_idx + 1) 0 + s.buffer.getD (s.read_idx + 2) 0 +
          s.buffer.getD s.read_idx 0 + 3 - d) := by
  rcases decode_inv N s d _ rfl with
    ⟨h1, h2⟩ | ⟨h1, h2, h3⟩ | ⟨h1, h2, h3, h4⟩ | ⟨h1, h2, h3, h4, h5, h6, h7⟩ |
    ⟨h1, h2, h3, h4, h5, h6, h7⟩ | ⟨h1, h2, h3, h4, h5, h6, h7⟩ |
    ⟨h1, h2, h3, h4, h5, h6, h7⟩
  · exact Or.inl ⟨h1, by rw [h2]⟩
  · rw [h3] at h; simp at h
  · exact Or.inr (Or.inl ⟨h1, h2, h3, by rw [h4]⟩)
  · exact Or.inr (Or.inr (Or.inl ⟨h1, h2, h3, h4, h5, h6, by rw [h7]⟩))
  · rw [h7] at h; simp at h
  · exact Or.inr (Or.inr (Or.inr ⟨h1, h2, h3, h4, h5, h6, by rw [h7]⟩))
  · rw [h7] at h; simp at h

theorem decode_zero (N : ℕ) (s : BinCrc) :
    decode_frame N s 0 = ({ s with bytes_left := 1 }, .NeedMoreBytes) := by
  delta decode_frame
  rw [if_pos rfl]

theorem decode_eval_hdr (N : ℕ) (s : BinCrc) (d : ℕ) (h0 : 0 < d)
    (hb : s.buffer.getD s.read_idx 0 = 2 ∨ s.buffer.getD s.read_idx 0 = 3)
    (hlt : d < s.buffer.getD s.read_idx 0) :
    decode_frame N s d =
      ({ s with bytes_left := s.buffer.getD s.read_idx 0 - d }, .NeedMoreBytes) := by
  delta decode_frame
  rw [if_neg (by omega : ¬d = 0), if_neg (by tauto), if_neg (by omega), if_pos hlt]

theorem decode_eval_body_1b (N : ℕ) (s : BinCrc) (d : ℕ) (h0 : 0 < d)
    (hb : s.buffer.getD s.read_idx 0 = 2) (hge : 2 ≤ d)
    (hlen : s.buffer.getD (s.read_idx + 1) 0 ≠ 0)
    (hN : s.buffer.getD (s.read_idx + 1) 0 ≤ N)
    (hlt : d < s.buffer.getD (s.read_idx + 1) 0 + 2 + 3) :
    decode_frame N s d =
      ({ s with bytes_left := s.buffer.getD (s.read_idx + 1) 0 + 2 + 3 - d },
        .NeedMoreBytes) := by
  delta decode_frame
  rw [hb]
  rw [if_neg (by omega : ¬d = 0), if_neg (by simp), if_neg (by omega),
    if_neg (by omega), if_pos rfl, if_neg hlen]
  delta decode_tail
  rw [if_neg (by omega), if_pos (by omega)]

theorem decode_eval_body_2b (N : ℕ) (s : BinCrc) (d : ℕ) (h0 : 0 < d)
    (hb : s.buffer.getD s.read_idx 0 = 3) (hge : 3 ≤ d)
    (hlen : 255 ≤ 256 * s.buffer.getD (s.read_idx + 1) 0 + s.buffer.getD (s.read_idx + 2) 0)
    (hN : 256 * s.buffer.getD (s.read_idx + 1) 0 + s.buffer.getD (s.read_idx + 2) 0 ≤ N)
    (hlt : d < 256 * s.buffer.getD (s.read_idx + 1) 0 + s.buffer.getD (s.read_idx + 2) 0 + 3 + 3) :
    decode_frame N s d =
      ({ s with bytes_left := 256 * s.buffer.getD (s.read_idx + 1) 0 +
          s.buffer.getD (s.read_idx + 2) 0 + 3 + 3 - d }, .NeedMoreBytes) := by
  delta decode_frame
  rw [hb]
  rw [if_neg (by omega : ¬d = 0), if_neg (by simp), if_neg (by omega),
    if_neg (by omega), if_neg (by omega), if_neg (by omega)]
  delta decode_tail
  rw [if_neg (by omega), if_pos (by omega)]

theorem drop_take_getD (l : List ℕ) (a n i : ℕ) (hi : i < n)
    (hle : a + n ≤ l.length) :
    ((l.drop a).take n).getD i 0 = l.getD (a + i) 0 := by
  have hlen : ((l.drop a).take n).length = n := by
    simp [List.length_take, List.length_drop]; omega
  rw [List.getD_eq_getElem?_getD, List.getD_eq_getElem?_getD]
  have h1 : i < ((l.drop a).take n).length := by omega
  have h2 : a + i < l.length := by omega
  rw [List.getElem?_eq_getElem h1, List.getElem?_eq_getElem h2]
  simp [List.getElem_take, List.getElem_drop]

theorem getD_idx_congr (l : List ℕ) (i j : ℕ) (h : i = j) :
    l.getD i 0 = l.getD j 0 := by rw [h]

theorem wire2_parts (p : List ℕ) :
    wire_frame2 p =
      [3, p.length % 65536 / 256, p.length % 256] ++
      (p ++ [crc16_xmodem p / 256 % 256, crc16_xmodem p % 256, 3]) := by
  unfold wire_frame2
  rw [List.append_assoc]

theorem wire2_length (p : List ℕ) : (wire_frame2 p).length = p.length + 6 := by
  rw [wire2_parts]
  simp only [List.length_append, List.length_cons, List.length_nil]
  omega

theorem wire2_getD_zero (p : List ℕ) : (wire_frame2 p).getD 0 0 = 3 := by
  rw [wire2_parts]; rfl

theorem wire2_getD_one (p : List ℕ) :
    (wire_frame2 p).getD 1 0 = p.length % 65536 / 256 := by
  rw [wire2_parts]; rfl

theorem wire2_getD_two (p : List ℕ) :
    (wire_frame2 p).getD 2 0 = p.length % 256 := by
  rw [wire2_parts]; rfl

theorem wire2_getD_payload (p : List ℕ) (i : ℕ) (hi : i < p.length) :
    (wire_frame2 p).getD (3 + i) 0 = p.getD i 0 := by
  rw [wire2_parts]
  rw [List.getD_append_right _ _ _ _ (by simp)]
  simp only [List.length_cons, List.length_nil]
  have h2 : 3 + i - 3 = i := by omega
  rw [h2, List.getD_append _ _ _ _ (by omega)]

theorem wire2_getD_tail (p : List ℕ) (i : ℕ) (hi : i < 3) :
    (wire_frame2 p).getD (3 + (p.length + i)) 0 =
      [crc16_xmodem p / 256 % 256, crc16_xmodem p % 256, 3].getD i 0 := by
  rw [wire2_parts]
  rw [List.getD_append_right _ _ _ _ (by simp)]
  simp only [List.length_cons, List.length_nil]
  have h2 : 3 + (p.length + i) - 3 = p.length + i := by omega
  rw [h2, List.getD_append_right _ _ _ _ (by omega)]
  have h3 : p.length + i - p.length = i := by omega
  rw [h3]

theorem wire2_payload_slice (p : List ℕ) :
    ((wire_frame2 p).drop 3).take p.length = p := by
  rw [wire2_parts]
  exact List.take_left p [crc16_xmodem p / 256 % 256, crc16_xmodem p % 256, 3]

theorem wire_frame_eq_wire2 (p : List ℕ) (h : ¬p.length ≤ 255) :
    wire_frame p = wire_frame2 p := by
  unfold wire_frame wire_frame2
  rw [if_neg h]

theorem decode_window_1b (N : ℕ) (s : BinCrc) (p : List ℕ)
    (h1 : 1 ≤ p.length) (h2 : p.length ≤ 255) (hN : p.length ≤ N)
    (hlen : s.read_idx + (p.length + 5) ≤ s.buffer.length)
    (hwin : ∀ i, i < p.length + 5 →
      s.buffer.getD (s.read_idx + i) 0 = (wire_frame p).getD i 0) :
    decode_frame N s (p.length + 5) =
      ({ s with bytes_left := 0 },
        .Consumed (p.length + 5) (s.read_idx + 2) (s.read_idx + 2 + p.length)) := by
  have hh : hdrLen p = 2 := by unfold hdrLen; rw [if_pos h2]
  have hb0 : s.buffer.getD s.read_idx 0 = 2 := by
    have h := hwin 0 (by omega)
    rw [getD_idx_congr s.buffer (s.read_idx + 0) s.read_idx (by omega)] at h
    rw [h, wire_getD_zero, if_pos h2]
  have hl1 : s.buffer.getD (s.read_idx + 1) 0 = p.length := by
    rw [hwin 1 (by omega), wire_getD_one_1b p h2, Nat.mod_eq_of_lt (by omega)]
  have hterm : s.buffer.getD (s.read_idx + 2 + p.length + 2) 0 = 3 := by
    rw [getD_idx_congr s.buffer _ (s.read_idx + (p.length + 4)) (by omega)]
    rw [hwin (p.length + 4) (by omega)]
    rw [getD_idx_congr (wire_frame p) _ (hdrLen p + (p.length + 2)) (by omega)]
    exact wire_getD_tail p 2 (by omega)
  have hcrc1 : s.buffer.getD (s.read_idx + p.length + 2) 0 =
      crc16_xmodem p / 256 % 256 := by
    rw [getD_idx_congr s.buffer _ (s.read_idx + (p.length + 2)) (by omega)]
    rw [hwin (p.length + 2) (by omega)]
    rw [getD_idx_congr (wire_frame p) _ (hdrLen p + (p.length + 0)) (by omega)]
    exact wire_getD_tail p 0 (by omega)
  have hcrc2 : s.buffer.getD (s.read_idx + p.length + 2 + 1) 0 =
      crc16_xmodem p % 256 := by
    rw [getD_idx_congr s.buffer _ (s.read_idx + (p.length + 3)) (by omega)]
    rw [hwin (p.length + 3) (by omega)]
    rw [getD_idx_congr (wire_frame p) _ (hdrLen p + (p.length + 1)) (by omega)]
    exact wire_getD_tail p 1 (by omega)
  have hslice : (s.buffer.drop (s.read_idx + 2)).take p.length = p := by
    apply eq_of_getD
    · simp [List.length_take, List.length_drop]; omega
    · intro i hi
      have hlen2 : ((s.buffer.drop (s.read_idx + 2)).take p.length).length = p.length := by
        simp [List.length_take, List.length_drop]; omega
      rw [hlen2] at hi
      rw [drop_take_getD s.buffer (s.read_idx + 2) p.length i hi (by omega)]
      rw [getD_idx_congr s.buffer _ (s.read_idx + (2 + i)) (by omega)]
      rw [hwin (2 + i) (by omega)]
      rw [getD_idx_congr (wire_frame p) _ (hdrLen p + i) (by omega)]
      exact wire_getD_payload p i hi
  have hcond : crc16_xmodem ((s.buffer.drop (s.read_idx + 2)).take p.length) =
      256 * s.buffer.getD (s.read_idx + p.length + 2) 0 +
        s.buffer.getD (s.read_idx + p.length + 2 + 1) 0 := by
    rw [hslice, hcrc1, hcrc2]
    exact (crc_split _ (crc16_lt p)).symm
  delta decode_frame
  rw [hb0, hl1]
  rw [if_neg (by omega : ¬p.length + 5 = 0), if_neg (by simp),
    if_neg (by omega : ¬(2 : ℕ) = 4), if_neg (by omega : ¬p.length + 5 < 2),
    if_pos rfl, if_neg (by omega : ¬p.length = 0)]
  delta decode_tail
  rw [if_neg (by omega : ¬N < p.length),
    if_neg (by omega : ¬p.length + 5 < p.length + 2 + 3),
    if_neg (by omega : ¬s.buffer.getD (s.read_idx + 2 + p.length + 2) 0 ≠ 3),
    if_pos hcond]

theorem decode_window_2b (N : ℕ) (s : BinCrc) (p : List ℕ)
    (h1 : 255 ≤ p.length) (h2 : p.length < 65536) (hN : p.length ≤ N)
    (hlen : s.read_idx + (p.length + 6) ≤ s.buffer.length)
    (hwin : ∀ i, i < p.length + 6 →
      s.buffer.getD (s.read_idx + i) 0 = (wire_frame2 p).getD i 0) :
    decode_frame N s (p.length + 6) =
      ({ s with bytes_left := 0 },
        .Consumed (p.length + 6) (s.read_idx + 3) (s.read_idx + 3 + p.length)) := by
  have hb0 : s.buffer.getD s.read_idx 0 = 3 := by
    have h := hwin 0 (by omega)
    rw [getD_idx_congr s.buffer (s.read_idx + 0) s.read_idx (by omega)] at h
    rw [h, wire2_getD_zero]
  have hl1 : s.buffer.getD (s.read_idx + 1) 0 = p.length % 65536 / 256 := by
    rw [hwin 1 (by omega), wire2_getD_one]
  have hl2 : s.buffer.getD (s.read_idx + 2) 0 = p.length % 256 := by
    rw [hwin 2 (by omega), wire2_getD_two]
  have heq : 256 * s.buffer.getD (s.read_idx + 1) 0 + s.buffer.getD (s.read_idx + 2) 0 =
      p.length := by
    rw [hl1, hl2, Nat.mod_eq_of_lt h2]
    omega
  have hterm : s.buffer.getD (s.read_idx + 3 + p.length + 2) 0 = 3 := by
    rw [getD_idx_congr s.buffer _ (s.read_idx + (p.length + 5)) (by omega)]
    rw [hwin (p.length + 5) (by omega)]
    rw [getD_idx_congr (wire_frame2 p) _ (3 + (p.length + 2)) (by omega)]
    exact wire2_getD_tail p 2 (by omega)
  have hcrc1 : s.buffer.getD (s.read_idx + p.length + 3) 0 =
      crc16_xmodem p / 256 % 256 := by
    rw [getD_idx_congr s.buffer _ (s.read_idx + (p.length + 3)) (by omega)]
    rw [hwin (p.length + 3) (by omega)]
    rw [getD_idx_congr (wire_frame2 p) _ (3 + (p.length + 0)) (by omega)]
    exact wire2_getD_tail p 0 (by omega)
  have hcrc2 : s.buffer.getD (s.read_idx + p.length + 3 + 1) 0 =
      crc16_xmodem p % 256 := by
    rw [getD_idx_congr s.buffer _ (s.read_idx + (p.length + 4)) (by omega)]
    rw [hwin (p.length + 4) (by omega)]
    rw [getD_idx_congr (wire_frame2 p) _ (3 + (p.length + 1)) (by omega)]
    exact wire2_getD_tail p 1 (by omega)
  have hslice : (s.buffer.drop (s.read_idx + 3)).take p.length = p := by
    apply eq_of_getD
    · simp [List.length_take, List.length_drop]; omega
    · intro i hi
      have hlen2 : ((s.buffer.drop (s.read_idx + 3)).take p.length).length = p.length := by
        simp [List.length_take, List.length_drop]; omega
      rw [hlen2] at hi
      rw [drop_take_getD s.buffer (s.read_idx + 3) p.length i hi (by omega)]
      rw [getD_idx_congr s.buffer _ (s.read_idx + (3 + i)) (by omega)]
      rw [hwin (3 + i) (by omega)]
      exact wire2_getD_payload p i hi
  have hcond : crc16_xmodem ((s.buffer.drop (s.read_idx + 3)).take p.length) =
      256 * s.buffer.getD (s.read_idx + p.length + 3) 0 +
        s.buffer.getD (s.read_idx + p.length + 3 + 1) 0 := by
    rw [hslice, hcrc1, hcrc2]
    exact (crc_split _ (crc16_lt p)).symm
  delta decode_frame
  rw [hb0, heq]
  rw [if_neg (by omega : ¬p.length + 6 = 0), if_neg (by simp),
    if_neg (by omega : ¬(3 : ℕ) = 4), if_neg (by omega : ¬p.length + 6 < 3),
    if_neg (by omega : ¬(3 : ℕ) = 2), if_neg (by omega : ¬p.length < 255)]
  delta decode_tail
  rw [if_neg (by omega : ¬N < p.length),
    if_neg (by omega : ¬p.length + 6 < p.length + 3 + 3),
    if_neg (by omega : ¬s.buffer.getD (s.read_idx + 3 + p.length + 2) 0 ≠ 3),
    if_pos hcond]

theorem decode_reject_2b_small (N : ℕ) (s : BinCrc) (d : ℕ) (hd : 3 ≤ d)
    (hb : s.buffer.getD s.read_idx 0 = 3)
    (hl : 256 * s.buffer.getD (s.read_idx + 1) 0 + s.buffer.getD (s.read_idx + 2) 0 < 255) :
    (decode_frame N s d).2 = .InvalidData := by
  delta decode_frame
  rw [hb]
  rw [if_neg (by omega : ¬d = 0), if_neg (by simp),
    if_neg (by omega : ¬(3 : ℕ) = 4), if_neg (by omega : ¬d < 3),
    if_neg (by omega : ¬(3 : ℕ) = 2), if_pos hl]

theorem decode_reject_zero_len (N : ℕ) (s : BinCrc) (d : ℕ) (hd : 2 ≤ d)
    (hb : s.buffer.getD s.read_idx 0 = 2)
    (hl : s.buffer.getD (s.read_idx + 1) 0 = 0) :
    (decode_frame N s d).2 = .InvalidData := by
  delta decode_frame
  rw [hb]
  rw [if_neg (by omega : ¬d = 0), if_neg (by simp),
    if_neg (by omega : ¬(2 : ℕ) = 4), if_neg (by omega : ¬d < 2),
    if_pos rfl, if_pos hl]

theorem commit_eq_1b (N : ℕ) (p buf : List ℕ) (h : p.length ≤ 255)
    (hb : 2 + p.length + 3 ≤ buf.length) :
    commit_frame N p buf = (.ok (), wire_frame p ++ buf.drop (2 + p.length + 3)) := by
  delta commit_frame
  rw [if_pos h, if_neg (by omega)]
  unfold wire_frame
  rw [if_pos h]

theorem commit_eq_2b (N : ℕ) (p buf : List ℕ) (h : ¬p.length ≤ 255)
    (h2 : 256 ≤ p.length ∧ p.length ≤ N)
    (hb : 3 + p.length + 3 ≤ buf.length) :
    commit_frame N p buf = (.ok (), wire_frame p ++ buf.drop (3 + p.length + 3)) := by
  delta commit_frame
  rw [if_neg h, if_pos h2, if_neg (by omega)]
  unfold wire_frame
  rw [if_neg h]

theorem commit_invalid_eq (N : ℕ) (p buf : List ℕ) (h1 : ¬p.length ≤ 255)
    (h2 : ¬(256 ≤ p.length ∧ p.length ≤ N)) :
    commit_frame N p buf = (.error .InvalidLength, buf) := by
  delta commit_frame
  rw [if_neg h1, if_neg h2]

/-- C4: size_hint returns l + 5 for l ≤ 255, l + 6 for 256 ≤ l ≤ 512 and
TooBig beyond 512, while commit_frame (with room in the destination) uses the
1-byte header form exactly for l ≤ 255 and the 2-byte form for 256 ≤ l ≤ N,
failing with InvalidLength exactly when l > 255 and l > N; hence for any
capacity N other than 512 the two functions accept different sets of payload
lengths. -/
theorem size_hint_commit_domains (N : ℕ) :
    (∀ l, l ≤ 255 → size_hint l = .ok (l + 5)) ∧
    (∀ l, 256 ≤ l → l ≤ 512 → size_hint l = .ok (l + 6)) ∧
    (∀ l, 512 < l → size_hint l = .error .TooBig) ∧
    (∀ p buf : List ℕ, p.length ≤ 255 → p.length + 5 ≤ buf.length →
      (commit_frame N p buf).1 = .ok () ∧ (commit_frame N p buf).2.getD 0 0 = 2) ∧
    (∀ p buf : List ℕ, 256 ≤ p.length → p.length ≤ N → p.length + 6 ≤ buf.length →
      (commit_frame N p buf).1 = .ok () ∧ (commit_frame N p buf).2.getD 0 0 = 3) ∧
    (∀ p buf : List ℕ, (commit_frame N p buf).1 = .error .InvalidLength ↔
      255 < p.length ∧ N < p.length) ∧
    (N ≠ 512 → ¬∀ l : ℕ, (∃ m, size_hint l = .ok m) ↔
      (commit_frame N (List.replicate l 0) (List.replicate (l + 6) 0)).1 = .ok ()) := by
  refine ⟨?_, ?_, ?_, ?_, ?_, ?_, ?_⟩
  · intro l h
    delta size_hint
    rw [if_pos h]
    simp only [Except.ok.injEq]
    omega
  · intro l h1 h2
    delta size_hint
    rw [if_neg (by omega), if_pos ⟨h1, h2⟩]
    simp only [Except.ok.injEq]
    omega
  · intro l h
    delta size_hint
    rw [if_neg (by omega), if_neg (by omega)]
  · intro p buf h hb
    rw [commit_eq_1b N p buf h (by omega)]
    constructor
    · rfl
    · rw [wire_frame_parts, if_pos h]
      rfl
  · intro p buf h1 h2 hb
    rw [commit_eq_2b N p buf (by omega) ⟨h1, h2⟩ (by omega)]
    constructor
    · rfl
    · rw [wire_frame_parts, if_neg (by omega)]
      rfl
  · intro p buf
    delta commit_frame
    split_ifs <;> simp_all <;> omega
  · intro hN h
    by_cases hcase : N < 512
    · have h512 := (h 512).mp ⟨518, by delta size_hint; rw [if_neg (by omega), if_pos (by omega)]⟩
      rw [commit_invalid_eq N _ _ (by simp) (by simp; omega)] at h512
      simp at h512
    · have hbig : 512 < N := by omega
      have hc : (commit_frame N (List.replicate N 0) (List.replicate (N + 6) 0)).1 =
          .ok () := by
        rw [commit_eq_2b N _ _ (by simp; omega) (by simp; omega) (by simp; omega)]
      obtain ⟨m, hm⟩ := (h N).mpr hc
      have hsz : size_hint N = .error .TooBig := by
        delta size_hint
        rw [if_neg (by omega), if_neg (by omega)]
      rw [hsz] at hm
      exact absurd hm (by simp)

theorem commit_error_preserves (N : ℕ) (p buf : List ℕ) (e : BinCrcError)
    (h : (commit_frame N p buf).1 = .error e) : (commit_frame N p buf).2 = buf := by
  delta commit_frame at h ⊢
  split_ifs at h ⊢ <;> simp_all

/-- C8: for a payload length supported by both the encoder and size_hint,
commit_frame fails with NotEnoughSpace on a destination one byte smaller than
the size size_hint reports, succeeds on a destination of exactly that size,
and every erroring call leaves the destination buffer unchanged. -/
theorem commit_capacity_boundary (N l : ℕ) (p : List ℕ) (hp : p.length = l)
    (hsup : (l ≤ 255 ∨ (256 ≤ l ∧ l ≤ N)) ∧ l ≤ 512) (m : ℕ)
    (hm : size_hint l = .ok m) :
    (∀ buf : List ℕ, buf.length + 1 = m →
      commit_frame N p buf = (.error .NotEnoughSpace, buf)) ∧
    (∀ buf : List ℕ, buf.length = m → (commit_frame N p buf).1 = .ok ()) ∧
    (∀ buf : List ℕ, ∀ e, (commit_frame N p buf).1 = .error e →
      (commit_frame N p buf).2 = buf) := by
  refine ⟨?_, ?_, fun buf e h => commit_error_preserves N p buf e h⟩
  · intro buf hb
    rcases hsup.1 with hc | hc
    · have hm2 : m = 2 + l + 3 := by
        delta size_hint at hm
        rw [if_pos hc] at hm
        simp only [Except.ok.injEq] at hm
        omega
      delta commit_frame
      rw [if_pos (by omega : p.length ≤ 255), if_pos (by omega)]
    · have hm2 : m = 3 + l + 3 := by
        delta size_hint at hm
        rw [if_neg (by omega), if_pos (by omega)] at hm
        simp only [Except.ok.injEq] at hm
        omega
      delta commit_frame
      rw [if_neg (by omega : ¬p.length ≤ 255),
        if_pos (by omega : 256 ≤ p.length ∧ p.length ≤ N), if_pos (by omega)]
  · intro buf hb
    rcases hsup.1 with hc | hc
    · have hm2 : m = 2 + l + 3 := by
        delta size_hint at hm
        rw [if_pos hc] at hm
        simp only [Except.ok.injEq] at hm
        omega
      rw [commit_eq_1b N p buf (by omega) (by omega)]
    · have hm2 : m = 3 + l + 3 := by
        delta size_hint at hm
        rw [if_neg (by omega), if_pos (by omega)] at hm
        simp only [Except.ok.injEq] at hm
        omega
      rw [commit_eq_2b N p buf (by omega) (by omega) (by omega)]

theorem crc16_zeros (n : ℕ) : crc16_xmodem (List.replicate n 0) = 0 := by
  have h : ∀ m (c : ℕ), c = 0 → (List.replicate m 0).foldl crc16_update c = 0 := by
    intro m
    induction m with
    | zero => intro c hc; simpa using hc
    | succ k ih =>
      intro c hc
      rw [List.replicate_succ, List.foldl_cons]
      exact ih _ (by rw [hc]; decide)
  exact h n 0 rfl

/-- C7: whenever decode_frame answers NeedMoreBytes it stores the exact
shortfall in bytes_left: 1 when data_len = 0; b0 - data_len while the header
(of b0 = 2 or 3 bytes) is incomplete; and frame_len + b0 + 3 - data_len once
the header is decoded but the full frame is not yet buffered. -/
theorem need_more_bytes_exact (N : ℕ) (s : BinCrc) (d : ℕ)
    (h : (decode_frame N s d).2 = .NeedMoreBytes) :
    (d = 0 ∧ (decode_frame N s d).1.bytes_left = 1) ∨
    (0 < d ∧ (s.buffer.getD s.read_idx 0 = 2 ∨ s.buffer.getD s.read_idx 0 = 3) ∧
      d < s.buffer.getD s.read_idx 0 ∧
      (decode_frame N s d).1.bytes_left = s.buffer.getD s.read_idx 0 - d) ∨
    (0 < d ∧ s.buffer.getD s.read_idx 0 ≤ d ∧
      d < frameLenAt s + s.buffer.getD s.read_idx 0 + 3 ∧
      (decode_frame N s d).1.bytes_left =
        frameLenAt s + s.buffer.getD s.read_idx 0 + 3 - d) := by
  rcases decode_nmb_facts N s d h with
    h1 | h1 | ⟨h1, h2, h3, h4, h5, h6, h7⟩ | ⟨h1, h2, h3, h4, h5, h6, h7⟩
  · exact Or.inl h1
  · exact Or.inr (Or.inl h1)
  · have hf : frameLenAt s = s.buffer.getD (s.read_idx + 1) 0 := by
      unfold frameLenAt
      rw [if_pos h2]
    exact Or.inr (Or.inr ⟨h1, h3, by rw [hf]; omega, by rw [hf]; omega⟩)
  · have hf : frameLenAt s =
        256 * s.buffer.getD (s.read_idx + 1) 0 + s.buffer.getD (s.read_idx + 2) 0 := by
      unfold frameLenAt
      rw [if_neg (by omega)]
    exact Or.inr (Or.inr ⟨h1, h3, by rw [hf]; omega, by rw [hf]; omega⟩)

/-- Witness for C7 at a concrete input: one buffered byte 3 announces a 2-byte
length field, so the scanner asks for exactly 2 more bytes. -/
theorem need_more_bytes_exact_witness :
    (decode_frame 4 ⟨[3, 1], 0, 2, 0⟩ 1).2 = DecodeResult.NeedMoreBytes ∧
    ((1 = 0 ∧ (decode_frame 4 ⟨[3, 1], 0, 2, 0⟩ 1).1.bytes_left = 1) ∨
      (0 < 1 ∧ (([3, 1] : List ℕ).getD 0 0 = 2 ∨ ([3, 1] : List ℕ).getD 0 0 = 3) ∧
        1 < ([3, 1] : List ℕ).getD 0 0 ∧
        (decode_frame 4 ⟨[3, 1], 0, 2, 0⟩ 1).1.bytes_left = ([3, 1] : List ℕ).getD 0 0 - 1) ∨
      (0 < 1 ∧ ([3, 1] : List ℕ).getD 0 0 ≤ 1 ∧
        1 < frameLenAt ⟨[3, 1], 0, 2, 0⟩ + ([3, 1] : List ℕ).getD 0 0 + 3 ∧
        (decode_frame 4 ⟨[3, 1], 0, 2, 0⟩ 1).1.bytes_left =
          frameLenAt ⟨[3, 1], 0, 2, 0⟩ + ([3, 1] : List ℕ).getD 0 0 + 3 - 1)) :=
  ⟨by decide, need_more_bytes_exact 4 ⟨[3, 1], 0, 2, 0⟩ 1 (by decide)⟩

/-- C2 counterexample: a complete, CRC-correct 1-byte-header frame with length
byte L = 255 (payload of 255 zero bytes, whose CRC-16/XMODEM is 0) is accepted
by the scanner as Consumed, not rejected as the claim states. -/
theorem len255_one_byte_accepted_cex :
    wire_frame (List.replicate 255 0) = [2, 255] ++ List.replicate 255 0 ++ [0, 0, 3] ∧
    (decode_frame 255 ⟨[2, 255] ++ List.replicate 255 0 ++ [0, 0, 3], 0, 260, 0⟩ 260).2 =
      .Consumed 260 2 257 := by
  have hwf : wire_frame (List.replicate 255 0) =
      [2, 255] ++ List.replicate 255 0 ++ [0, 0, 3] := by
    rw [wire_frame_parts, crc16_zeros, List.append_assoc]
    simp
  refine ⟨hwf, ?_⟩
  have h := decode_window_1b 255
    ⟨[2, 255] ++ List.replicate 255 0 ++ [0, 0, 3], 0, 260, 0⟩
    (List.replicate 255 0) (by simp) (by simp) (by simp)
    (by simp)
    (by
      intro i hi
      rw [getD_idx_congr _ (0 + i) i (by omega), ← hwf])
  simp only [List.length_replicate] at h
  rw [show (255 : ℕ) + 5 = 260 from rfl] at h
  rw [h]

/-- C2 amended: a complete well-formed 1-byte-header frame with length byte
L = 255 is accepted (the code never forces 255 into the 2-byte form); a
2-byte-header frame whose big-endian length field is 254 is rejected; L = 255
via the 2-byte form is accepted, given correct CRC, terminator and L ≤ N. -/
theorem length_boundary_amended (N : ℕ) (p : List ℕ) (hp : p.length = 255)
    (hN : 255 ≤ N) :
    (∀ s : BinCrc, s.read_idx + 260 ≤ s.buffer.length →
      (∀ i, i < 260 → s.buffer.getD (s.read_idx + i) 0 = (wire_frame p).getD i 0) →
      (decode_frame N s 260).2 = .Consumed 260 (s.read_idx + 2) (s.read_idx + 257)) ∧
    (∀ s : BinCrc, ∀ d, 3 ≤ d → s.buffer.getD s.read_idx 0 = 3 →
      256 * s.buffer.getD (s.read_idx + 1) 0 + s.buffer.getD (s.read_idx + 2) 0 = 254 →
      (decode_frame N s d).2 = .InvalidData) ∧
    (∀ s : BinCrc, s.read_idx + 261 ≤ s.buffer.length →
      (∀ i, i < 261 → s.buffer.getD (s.read_idx + i) 0 = (wire_frame2 p).getD i 0) →
      (decode_frame N s 261).2 = .Consumed 261 (s.read_idx + 3) (s.read_idx + 258)) := by
  refine ⟨?_, ?_, ?_⟩
  · intro s hlen hwin
    have h := decode_window_1b N s p (by omega) (by omega) (by omega)
      (by rw [hp]; exact hlen) (by rw [hp]; exact hwin)
    rw [hp, show (255 : ℕ) + 5 = 260 from rfl] at h
    rw [h]
  · intro s d hd hb hl
    exact decode_reject_2b_small N s d hd hb (by omega)
  · intro s hlen hwin
    have h := decode_window_2b N s p (by omega) (by omega) (by omega)
      (by rw [hp]; exact hlen) (by rw [hp]; exact hwin)
    rw [hp, show (255 : ℕ) + 6 = 261 from rfl] at h
    rw [h]

/-- Witness for the amended C2 at concrete inputs: the 255-zeros payload in
both header forms, and the malformed 2-byte header announcing 254. -/
theorem length_boundary_amended_witness :
    ((List.replicate 255 0 : List ℕ).length = 255 ∧ (255 : ℕ) ≤ 255) ∧
    (decode_frame 255 ⟨wire_frame (List.replicate 255 0), 0, 260, 0⟩ 260).2 =
      .Consumed 260 (0 + 2) (0 + 257) ∧
    (decode_frame 255 ⟨[3, 0, 254, 9, 9, 9], 0, 6, 0⟩ 6).2 = .InvalidData ∧
    (decode_frame 255 ⟨wire_frame2 (List.replicate 255 0), 0, 261, 0⟩ 261).2 =
      .Consumed 261 (0 + 3) (0 + 258) := by
  have hp : (List.replicate 255 0 : List ℕ).length = 255 := by simp
  have h := length_boundary_amended 255 (List.replicate 255 0) hp (by omega)
  refine ⟨⟨hp, by omega⟩, ?_, ?_, ?_⟩
  · exact h.1 ⟨wire_frame (List.replicate 255 0), 0, 260, 0⟩
      (by simp [wire_frame_length, hdrLen]) (fun i hi => by simp)
  · exact h.2.1 ⟨[3, 0, 254, 9, 9, 9], 0, 6, 0⟩ 6 (by omega) (by decide) (by decide)
  · exact h.2.2 ⟨wire_frame2 (List.replicate 255 0), 0, 261, 0⟩
      (by simp [wire2_length]) (fun i hi => by simp)

/-- C3 (code bug evidence): feeding one complete valid frame consumes all
pending bytes, yet read_idx and write_idx are left at 6 instead of being
reset to 0 — the reset is guarded by `bytes_pending == 0`, but bytes_pending
was incremented for the incoming byte and is therefore never zero. -/
theorem cursor_reset_dead_code :
    (feed 8 (BinCrc.new 8) [2, 1, 170, 20, 160, 3]).2 = [[170]] ∧
    (feed 8 (BinCrc.new 8) [2, 1, 170, 20, 160, 3]).1.read_idx = 6 ∧
    (feed 8 (BinCrc.new 8) [2, 1, 170, 20, 160, 3]).1.write_idx = 6 := by decide

/-- C10: commit_frame accepts the empty payload, writing the wire frame
[2, 0, 0, 0, 3]; the scanner rejects any frame whose 1-byte header carries a
zero length byte, so that frame yields no emission and the round trip fails
for the empty payload. -/
theorem empty_payload_asymmetry :
    (∀ N : ℕ, ∀ buf : List ℕ, 5 ≤ buf.length →
      commit_frame N [] buf = (.ok (), [2, 0, 0, 0, 3] ++ buf.drop 5)) ∧
    (∀ N : ℕ, ∀ s : BinCrc, ∀ d, 2 ≤ d → s.buffer.getD s.read_idx 0 = 2 →
      s.buffer.getD (s.read_idx + 1) 0 = 0 → (decode_frame N s d).2 = .InvalidData) ∧
    (feed 8 (BinCrc.new 8) [2, 0, 0, 0, 3]).2 = [] := by
  refine ⟨?_, fun N s d hd hb hl => decode_reject_zero_len N s d hd hb hl, by decide⟩
  intro N buf hb
  rw [commit_eq_1b N [] buf (by simp) (by simp; omega)]
  rw [show wire_frame [] = [2, 0, 0, 0, 3] from by decide]
  rfl

/-- Witness for C10 at concrete inputs: committing the empty payload into a
5-byte buffer, and scanning its output frame. -/
theorem empty_payload_asymmetry_witness :
    (5 ≤ (List.replicate 5 0 : List ℕ).length ∧
      commit_frame 8 [] (List.replicate 5 0) =
        (.ok (), [2, 0, 0, 0, 3] ++ (List.replicate 5 0 : List ℕ).drop 5)) ∧
    ((2 : ℕ) ≤ 5 ∧ (decode_frame 8 ⟨[2, 0, 0, 0, 3], 0, 5, 0⟩ 5).2 = .InvalidData) ∧
    (feed 8 (BinCrc.new 8) [2, 0, 0, 0, 3]).2 = [] :=
  ⟨⟨by decide, empty_payload_asymmetry.1 8 (List.replicate 5 0) (by decide)⟩,
   ⟨by decide, empty_payload_asymmetry.2.1 8 ⟨[2, 0, 0, 0, 3], 0, 5, 0⟩ 5 (by decide)
      (by decide) (by decide)⟩,
   empty_payload_asymmetry.2.2⟩

/-- Witness for C4 at concrete inputs with capacity N = 8. -/
theorem size_hint_commit_domains_witness :
    size_hint 3 = .ok 8 ∧
    ((commit_frame 8 [7] (List.replicate 6 0)).1 = .ok () ∧
      (commit_frame 8 [7] (List.replicate 6 0)).2.getD 0 0 = 2) ∧
    ((commit_frame 8 (List.replicate 300 0) (List.replicate 306 0)).1 =
      .error .InvalidLength) ∧
    ((8 : ℕ) ≠ 512 ∧ ¬∀ l : ℕ, (∃ m, size_hint l = .ok m) ↔
      (commit_frame 8 (List.replicate l 0) (List.replicate (l + 6) 0)).1 = .ok ()) :=
  ⟨(size_hint_commit_domains 8).1 3 (by decide),
   (size_hint_commit_domains 8).2.2.2.1 [7] (List.replicate 6 0) (by decide) (by decide),
   ((size_hint_commit_domains 8).2.2.2.2.2.1 (List.replicate 300 0)
      (List.replicate 306 0)).mpr (by simp),
   ⟨by decide, (size_hint_commit_domains 8).2.2.2.2.2.2 (by decide)⟩⟩

/-- Witness for C8 at a concrete input: payload of length 3, reported size 8,
destination of 7 bytes rejected, destination of 8 bytes accepted. -/
theorem commit_capacity_boundary_witness :
    (([1, 2, 3] : List ℕ).length = 3 ∧ ((3 : ℕ) ≤ 255 ∨ (256 ≤ 3 ∧ 3 ≤ 8)) ∧
      (3 : ℕ) ≤ 512 ∧ size_hint 3 = .ok 8) ∧
    commit_frame 8 [1, 2, 3] (List.replicate 7 0) =
      (.error .NotEnoughSpace, List.replicate 7 0) ∧
    (commit_frame 8 [1, 2, 3] (List.replicate 8 0)).1 = .ok () :=
  ⟨⟨by decide, Or.inl (by decide), by decide, by decide⟩,
   (commit_capacity_boundary 8 3 [1, 2, 3] (by decide)
      ⟨Or.inl (by decide), by decide⟩ 8 (by decide)).1 (List.replicate 7 0) (by decide),
   (commit_capacity_boundary 8 3 [1, 2, 3] (by decide)
      ⟨Or.inl (by decide), by decide⟩ 8 (by decide)).2.1 (List.replicate 8 0) (by decide)⟩

/-- C1 counterexample: with capacity N = 6 and payload [0, 0] (length 2, well
within 1 ≤ len ≤ N and len ≤ 512), commit_frame succeeds into a buffer of the
exact size_hint size 7, yet feeding those 7 bytes through a fresh decoder of
capacity 6 emits nothing: the 7-byte wire frame can never be buffered whole,
the saturation reset fires on its last byte. -/
theorem round_trip_small_buffer_cex :
    size_hint 2 = .ok 7 ∧
    (commit_frame 6 [0, 0] (List.replicate 7 0)).1 = .ok () ∧
    (commit_frame 6 [0, 0] (List.replicate 7 0)).2 = [2, 2, 0, 0, 0, 0, 3] ∧
    (feed 6 (BinCrc.new 6) (commit_frame 6 [0, 0] (List.replicate 7 0)).2).2 = [] := by
  refine ⟨by decide, by decide, by decide, ?_⟩
  rw [show (commit_frame 6 [0, 0] (List.replicate 7 0)).2 = [2, 2, 0, 0, 0, 0, 3]
    from by decide]
  decide

theorem decode_bl_irrel (N : ℕ) (B : List ℕ) (r w bl1 bl2 d : ℕ) :
    decode_frame N ⟨B, r, w, bl1⟩ d = decode_frame N ⟨B, r, w, bl2⟩ d := by
  delta decode_frame decode_tail
  dsimp only

theorem scanLoop_bl_irrel (N fuel : ℕ) (B : List ℕ) (r w bl1 bl2 la : ℕ)
    (acc : List (List ℕ)) :
    scanLoop N (fuel + 1) ⟨B, r, w, bl1⟩ la acc =
      scanLoop N (fuel + 1) ⟨B, r, w, bl2⟩ la acc := by
  simp only [scanLoop, decode_bl_irrel N B r w bl1 bl2 la]

theorem scanLoop_state (N : ℕ) : ∀ (fuel : ℕ) (s : BinCrc) (la : ℕ)
    (acc : List (List ℕ)), s.read_idx + la = s.write_idx →
    (scanLoop N fuel s la acc).1.buffer = s.buffer ∧
    (scanLoop N fuel s la acc).1.write_idx = s.write_idx ∧
    s.read_idx ≤ (scanLoop N fuel s la acc).1.read_idx ∧
    ∃ la2, la2 ≤ la ∧ (scanLoop N fuel s la acc).1.read_idx + la2 = s.write_idx := by
  intro fuel
  induction fuel with
  | zero =>
    intro s la acc hla
    exact ⟨rfl, rfl, le_rfl, la, le_rfl, hla⟩
  | succ f ih =>
    intro s la acc hla
    rcases hdec : decode_frame N s la with ⟨s1, res⟩
    have hbuf : s1.buffer = s.buffer := by rw [← decode_buffer N s la, hdec]
    have hread : s1.read_idx = s.read_idx := by rw [← decode_read N s la, hdec]
    have hwrite : s1.write_idx = s.write_idx := by rw [← decode_write N s la, hdec]
    cases res with
    | NeedMoreBytes =>
      simp only [scanLoop, hdec]
      exact ⟨hbuf, hwrite, by omega, la, le_rfl, by omega⟩
    | InvalidData =>
      have hpos : 1 ≤ la := (decode_invalid_facts N s la (by rw [hdec])).1
      have hpre : ({ s1 with read_idx := s1.read_idx + 1 } : BinCrc).read_idx + (la - 1) =
          ({ s1 with read_idx := s1.read_idx + 1 } : BinCrc).write_idx := by
        dsimp only
        omega
      obtain ⟨hb, hw, hr, la2, hla2, hfin⟩ :=
        ih { s1 with read_idx := s1.read_idx + 1 } (la - 1) acc hpre
      have hb2 : (scanLoop N f { s1 with read_idx := s1.read_idx + 1 } (la - 1) acc).1.buffer =
          s1.buffer := hb
      have hw2 : (scanLoop N f { s1 with read_idx := s1.read_idx + 1 } (la - 1) acc).1.write_idx =
          s1.write_idx := hw
      have hr2 : s1.read_idx + 1 ≤
          (scanLoop N f { s1 with read_idx := s1.read_idx + 1 } (la - 1) acc).1.read_idx := hr
      have hfin2 : (scanLoop N f { s1 with read_idx := s1.read_idx + 1 } (la - 1) acc).1.read_idx +
          la2 = s1.write_idx := hfin
      simp only [scanLoop, hdec]
      exact ⟨by rw [hb2, hbuf], by rw [hw2, hwrite], by omega, la2, by omega, by omega⟩
    | Consumed count start stop =>
      have hc := decode_consumed_facts N s la count start stop (by rw [hdec])
      have hpre : ({ s1 with read_idx := s1.read_idx + count } : BinCrc).read_idx + (la - count) =
          ({ s1 with read_idx := s1.read_idx + count } : BinCrc).write_idx := by
        dsimp only
        omega
      obtain ⟨hb, hw, hr, la2, hla2, hfin⟩ :=
        ih { s1 with read_idx := s1.read_idx + count } (la - count)
          (acc ++ [(s1.buffer.drop start).take (stop - start)]) hpre
      have hb2 : (scanLoop N f { s1 with read_idx := s1.read_idx + count } (la - count)
          (acc ++ [(s1.buffer.drop start).take (stop - start)])).1.buffer = s1.buffer := hb
      have hw2 : (scanLoop N f { s1 with read_idx := s1.read_idx + count } (la - count)
          (acc ++ [(s1.buffer.drop start).take (stop - start)])).1.write_idx = s1.write_idx := hw
      have hr2 : s1.read_idx + count ≤
          (scanLoop N f { s1 with read_idx := s1.read_idx + count } (la - count)
            (acc ++ [(s1.buffer.drop start).take (stop - start)])).1.read_idx := hr
      have hfin2 : (scanLoop N f { s1 with read_idx := s1.read_idx + count } (la - count)
          (acc ++ [(s1.buffer.drop start).take (stop - start)])).1.read_idx + la2 =
            s1.write_idx := hfin
      simp only [scanLoop, hdec]
      exact ⟨by rw [hb2, hbuf], by rw [hw2, hwrite], by omega, la2, by omega, by omega⟩

/-- C9: the scanner consumes within bounds — InvalidData only ever occurs
with at least one byte of lookahead (so the one-byte resync subtraction never
underflows), a Consumed count never exceeds the available lookahead, and the
scanning loop (which the source bounds by bytes_pending iterations, the fuel
of this embedding) never moves read_idx past write_idx and never changes
write_idx, for any fuel. -/
theorem scan_termination_bounds (N : ℕ) (s : BinCrc) (d fuel la : ℕ)
    (acc : List (List ℕ)) :
    ((decode_frame N s d).2 = .InvalidData → 1 ≤ d) ∧
    (∀ c a b, (decode_frame N s d).2 = .Consumed c a b → 1 ≤ c ∧ c ≤ d) ∧
    (s.read_idx + la = s.write_idx →
      (scanLoop N fuel s la acc).1.read_idx ≤ (scanLoop N fuel s la acc).1.write_idx ∧
      (scanLoop N fuel s la acc).1.write_idx = s.write_idx) := by
  refine ⟨fun h => (decode_invalid_facts N s d h).1,
    fun c a b h => ⟨(decode_consumed_facts N s d c a b h).2.1,
      (decode_consumed_facts N s d c a b h).2.2.1⟩, fun hla => ?_⟩
  obtain ⟨hb, hw, hr, la2, hla2, hfin⟩ := scanLoop_state N fuel s la acc hla
  exact ⟨by omega, hw⟩

/-- Witness for C9 at a concrete input: scanning two junk bytes consumes both
and leaves the cursors ordered. -/
theorem scan_termination_bounds_witness :
    (0 + 2 = 2) ∧
    ((scanLoop 4 2 ⟨[0, 0, 0, 0], 0, 2, 0⟩ 2 []).1.read_idx ≤
        (scanLoop 4 2 ⟨[0, 0, 0, 0], 0, 2, 0⟩ 2 []).1.write_idx ∧
      (scanLoop 4 2 ⟨[0, 0, 0, 0], 0, 2, 0⟩ 2 []).1.write_idx =
        (⟨[0, 0, 0, 0], 0, 2, 0⟩ : BinCrc).write_idx) :=
  ⟨rfl, (scan_termination_bounds 4 ⟨[0, 0, 0, 0], 0, 2, 0⟩ 2 2 2 []).2.2 (by decide)⟩

theorem eat_byte_eq_sat (N : ℕ) (s : BinCrc) (b : ℕ)
    (h : N ≤ s.write_idx - s.read_idx) :
    eat_byte N s b = (⟨s.buffer.set 0 b, 0, 1, 0⟩, []) := by
  delta eat_byte
  dsimp only
  rw [if_pos h]

theorem eat_byte_eq_main (N : ℕ) (s : BinCrc) (b : ℕ) (hc : ¬N ≤ s.write_idx) :
    eat_byte N s b =
      if 1 < s.bytes_left then
        ({ s with
            buffer := s.buffer.set s.write_idx b,
            write_idx := s.write_idx + 1,
            bytes_left := s.bytes_left - 1 }, [])
      else
        ((scanLoop N (s.write_idx - s.read_idx + 1)
            { s with buffer := s.buffer.set s.write_idx b, write_idx := s.write_idx + 1 }
            (s.write_idx - s.read_idx + 1) []).1,
          (scanLoop N (s.write_idx - s.read_idx + 1)
            { s with buffer := s.buffer.set s.write_idx b, write_idx := s.write_idx + 1 }
            (s.write_idx - s.read_idx + 1) []).2.1) := by
  have h : ¬N ≤ s.write_idx - s.read_idx := by omega
  delta eat_byte
  dsimp only
  rw [if_neg h, if_neg hc]
  by_cases hbl : 1 < s.bytes_left
  · rw [if_pos hbl, if_pos hbl]
  rw [if_neg hbl, if_neg hbl]
  rcases hscan : scanLoop N (s.write_idx - s.read_idx + 1)
      { s with buffer := s.buffer.set s.write_idx b, write_idx := s.write_idx + 1 }
      (s.write_idx - s.read_idx + 1) [] with ⟨s3, out, early⟩
  cases early
  · rw [if_neg (by simp), if_neg (by omega : ¬s.write_idx - s.read_idx + 1 = 0)]
  · rw [if_pos rfl]

theorem eat_byte_eq_compact (N : ℕ) (s : BinCrc) (b : ℕ)
    (h : ¬N ≤ s.write_idx - s.read_idx) (hc : N ≤ s.write_idx) :
    eat_byte N s b =
      if 1 < s.bytes_left then
        ({ s with
            buffer := (compact s.buffer s.read_idx (s.write_idx - s.read_idx)).set
              (s.write_idx - s.read_idx) b,
            read_idx := 0,
            write_idx := s.write_idx - s.read_idx + 1,
            bytes_left := s.bytes_left - 1 }, [])
      else
        ((scanLoop N (s.write_idx - s.read_idx + 1)
            { s with
                buffer := (compact s.buffer s.read_idx (s.write_idx - s.read_idx)).set
                  (s.write_idx - s.read_idx) b,
                read_idx := 0,
                write_idx := s.write_idx - s.read_idx + 1 }
            (s.write_idx - s.read_idx + 1) []).1,
          (scanLoop N (s.write_idx - s.read_idx + 1)
            { s with
                buffer := (compact s.buffer s.read_idx (s.write_idx - s.read_idx)).set
                  (s.write_idx - s.read_idx) b,
                read_idx := 0,
                write_idx := s.write_idx - s.read_idx + 1 }
            (s.write_idx - s.read_idx + 1) []).2.1) := by
  delta eat_byte
  dsimp only
  rw [if_neg h, if_pos hc]
  by_cases hbl : 1 < s.bytes_left
  · rw [if_pos hbl, if_pos hbl]
  rw [if_neg hbl, if_neg hbl]
  rcases hscan : scanLoop N (s.write_idx - s.read_idx + 1)
      { s with
          buffer := (compact s.buffer s.read_idx (s.write_idx - s.read_idx)).set
            (s.write_idx - s.read_idx) b,
          read_idx := 0,
          write_idx := s.write_idx - s.read_idx + 1 }
      (s.write_idx - s.read_idx + 1) [] with ⟨s3, out, early⟩
  cases early
  · rw [if_neg (by simp), if_neg (by omega : ¬s.write_idx - s.read_idx + 1 = 0)]
  · rw [if_pos rfl]

theorem eat_byte_ns_eq_sat (N : ℕ) (s : BinCrc) (b : ℕ)
    (h : N ≤ s.write_idx - s.read_idx) :
    eat_byte_ns N s b = (⟨s.buffer.set 0 b, 0, 1, 0⟩, []) := by
  delta eat_byte_ns
  dsimp only
  rw [if_pos h]

theorem eat_byte_ns_eq_main (N : ℕ) (s : BinCrc) (b : ℕ) (hc : ¬N ≤ s.write_idx) :
    eat_byte_ns N s b =
      ((scanLoop N (s.write_idx - s.read_idx + 1)
          { s with buffer := s.buffer.set s.write_idx b, write_idx := s.write_idx + 1 }
          (s.write_idx - s.read_idx + 1) []).1,
        (scanLoop N (s.write_idx - s.read_idx + 1)
          { s with buffer := s.buffer.set s.write_idx b, write_idx := s.write_idx + 1 }
          (s.write_idx - s.read_idx + 1) []).2.1) := by
  have h : ¬N ≤ s.write_idx - s.read_idx := by omega
  delta eat_byte_ns
  dsimp only
  rw [if_neg h, if_neg hc]
  rcases hscan : scanLoop N (s.write_idx - s.read_idx + 1)
      { s with buffer := s.buffer.set s.write_idx b, write_idx := s.write_idx + 1 }
      (s.write_idx - s.read_idx + 1) [] with ⟨s3, out, early⟩
  cases early
  · rw [if_neg (by simp), if_neg (by omega : ¬s.write_idx - s.read_idx + 1 = 0)]
  · rw [if_pos rfl]

theorem eat_byte_ns_eq_compact (N : ℕ) (s : BinCrc) (b : ℕ)
    (h : ¬N ≤ s.write_idx - s.read_idx) (hc : N ≤ s.write_idx) :
    eat_byte_ns N s b =
      ((scanLoop N (s.write_idx - s.read_idx + 1)
          { s with
              buffer := (compact s.buffer s.read_idx (s.write_idx - s.read_idx)).set
                (s.write_idx - s.read_idx) b,
              read_idx := 0,
              write_idx := s.write_idx - s.read_idx + 1 }
          (s.write_idx - s.read_idx + 1) []).1,
        (scanLoop N (s.write_idx - s.read_idx + 1)
          { s with
              buffer := (compact s.buffer s.read_idx (s.write_idx - s.read_idx)).set
                (s.write_idx - s.read_idx) b,
              read_idx := 0,
              write_idx := s.write_idx - s.read_idx + 1 }
          (s.write_idx - s.read_idx + 1) []).2.1) := by
  delta eat_byte_ns
  dsimp only
  rw [if_neg h, if_pos hc]
  rcases hscan : scanLoop N (s.write_idx - s.read_idx + 1)
      { s with
          buffer := (compact s.buffer s.read_idx (s.write_idx - s.read_idx)).set
            (s.write_idx - s.read_idx) b,
          read_idx := 0,
          write_idx := s.write_idx - s.read_idx + 1 }
      (s.write_idx - s.read_idx + 1) [] with ⟨s3, out, early⟩
  cases early
  · rw [if_neg (by simp), if_neg (by omega : ¬s.write_idx - s.read_idx + 1 = 0)]
  · rw [if_pos rfl]

theorem eat_byte_wf (N : ℕ) (s : BinCrc) (b : ℕ) (hN : 1 ≤ N) (hwf : wf N s) :
    wf N (eat_byte N s b).1 := by
  obtain ⟨h1, h2, h3⟩ := hwf
  have hwN : s.write_idx ≤ N := by omega
  by_cases hsat : N ≤ s.write_idx - s.read_idx
  · rw [eat_byte_eq_sat N s b hsat]
    exact ⟨by dsimp only; omega, by dsimp only; omega, by dsimp only; simp [h3]⟩
  · by_cases hcomp : N ≤ s.write_idx
    · have hcl : (compact s.buffer s.read_idx (s.write_idx - s.read_idx)).length = N := by
        rw [compact_length _ _ _ (by omega)]
        exact h3
      by_cases hbl : 1 < s.bytes_left
      · rw [eat_byte_eq_compact N s b hsat hcomp, if_pos hbl]
        exact ⟨by dsimp only; omega, by dsimp only; omega, by dsimp only; simp [hcl]⟩
      · rw [eat_byte_eq_compact N s b hsat hcomp, if_neg hbl]
        obtain ⟨hb, hw, hr, la2, hla2, hfin⟩ := scanLoop_state N
          (s.write_idx - s.read_idx + 1)
          { s with
              buffer := (compact s.buffer s.read_idx (s.write_idx - s.read_idx)).set
                (s.write_idx - s.read_idx) b,
              read_idx := 0,
              write_idx := s.write_idx - s.read_idx + 1 }
          (s.write_idx - s.read_idx + 1) [] (by dsimp only; omega)
        have hb2 : (scanLoop N (s.write_idx - s.read_idx + 1)
            { s with
                buffer := (compact s.buffer s.read_idx (s.write_idx - s.read_idx)).set
                  (s.write_idx - s.read_idx) b,
                read_idx := 0,
                write_idx := s.write_idx - s.read_idx + 1 }
            (s.write_idx - s.read_idx + 1) []).1.buffer =
              (compact s.buffer s.read_idx (s.write_idx - s.read_idx)).set
                (s.write_idx - s.read_idx) b := hb
        have hw2 : (scanLoop N (s.write_idx - s.read_idx + 1)
            { s with
                buffer := (compact s.buffer s.read_idx (s.write_idx - s.read_idx)).set
                  (s.write_idx - s.read_idx) b,
                read_idx := 0,
                write_idx := s.write_idx - s.read_idx + 1 }
            (s.write_idx - s.read_idx + 1) []).1.write_idx =
              s.write_idx - s.read_idx + 1 := hw
        have hfin2 : (scanLoop N (s.write_idx - s.read_idx + 1)
            { s with
                buffer := (compact s.buffer s.read_idx (s.write_idx - s.read_idx)).set
                  (s.write_idx - s.read_idx) b,
                read_idx := 0,
                write_idx := s.write_idx - s.read_idx + 1 }
            (s.write_idx - s.read_idx + 1) []).1.read_idx + la2 =
              s.write_idx - s.read_idx + 1 := hfin
        exact ⟨by dsimp only; omega, by dsimp only; omega,
          by dsimp only; rw [hb2]; simp [hcl]⟩
    · by_cases hbl : 1 < s.bytes_left
      · rw [eat_byte_eq_main N s b hcomp, if_pos hbl]
        exact ⟨by dsimp only; omega, by dsimp only; omega, by dsimp only; simp [h3]⟩
      · rw [eat_byte_eq_main N s b hcomp, if_neg hbl]
        obtain ⟨hb, hw, hr, la2, hla2, hfin⟩ := scanLoop_state N
          (s.write_idx - s.read_idx + 1)
          { s with buffer := s.buffer.set s.write_idx b, write_idx := s.write_idx + 1 }
          (s.write_idx - s.read_idx + 1) [] (by dsimp only; omega)
        have hb2 : (scanLoop N (s.write_idx - s.read_idx + 1)
            { s with buffer := s.buffer.set s.write_idx b, write_idx := s.write_idx + 1 }
            (s.write_idx - s.read_idx + 1) []).1.buffer = s.buffer.set s.write_idx b := hb
        have hw2 : (scanLoop N (s.write_idx - s.read_idx + 1)
            { s with buffer := s.buffer.set s.write_idx b, write_idx := s.write_idx + 1 }
            (s.write_idx - s.read_idx + 1) []).1.write_idx = s.write_idx + 1 := hw
        have hfin2 : (scanLoop N (s.write_idx - s.read_idx + 1)
            { s with buffer := s.buffer.set s.write_idx b, write_idx := s.write_idx + 1 }
            (s.write_idx - s.read_idx + 1) []).1.read_idx + la2 = s.write_idx + 1 := hfin
        exact ⟨by dsimp only; omega, by dsimp only; omega,
          by dsimp only; rw [hb2]; simp [h3]⟩


theorem decode_tail_chk_eq (N : ℕ) (s : BinCrc) (d b0 fl : ℕ)
    (hle : s.read_idx + d ≤ s.buffer.length) :
    decode_tail_chk N s d b0 fl = some (decode_tail N s d b0 fl) := by
  delta decode_tail_chk decode_tail
  by_cases ht1 : N < fl
  · rw [if_pos ht1, if_pos ht1]
  rw [if_neg ht1, if_neg ht1]
  by_cases ht2 : d < fl + b0 + 3
  · rw [if_pos ht2, if_pos ht2]
  rw [if_neg ht2, if_neg ht2]
  rw [show readChk s.buffer (s.read_idx + b0 + fl + 2) =
    some (s.buffer.getD (s.read_idx + b0 + fl + 2) 0) from getD_some _ _ (by omega)]
  dsimp only
  by_cases ht3 : s.buffer.getD (s.read_idx + b0 + fl + 2) 0 ≠ 3
  · rw [if_pos ht3, if_pos ht3]
  rw [if_neg ht3, if_neg ht3]
  rw [show readChk s.buffer (s.read_idx + fl + b0) =
      some (s.buffer.getD (s.read_idx + fl + b0) 0) from getD_some _ _ (by omega),
    show readChk s.buffer (s.read_idx + fl + b0 + 1) =
      some (s.buffer.getD (s.read_idx + fl + b0 + 1) 0) from getD_some _ _ (by omega),
    show sliceChk s.buffer (s.read_idx + b0) (s.read_idx + b0 + fl) =
      some ((s.buffer.drop (s.read_idx + b0)).take fl) from by
        delta sliceChk
        rw [if_pos ⟨by omega, by omega⟩,
          show s.read_idx + b0 + fl - (s.read_idx + b0) = fl from by omega]]
  dsimp only
  by_cases ht4 : crc16_xmodem ((s.buffer.drop (s.read_idx + b0)).take fl) =
      256 * s.buffer.getD (s.read_idx + fl + b0) 0 +
        s.buffer.getD (s.read_idx + fl + b0 + 1) 0
  · rw [if_pos ht4, if_pos ht4]
  · rw [if_neg ht4, if_neg ht4]

theorem decode_chk_eq (N : ℕ) (s : BinCrc) (d : ℕ)
    (hle : s.read_idx + d ≤ s.buffer.length) :
    decode_frame_chk N s d = some (decode_frame N s d) := by
  by_cases hd : d = 0
  · subst hd
    delta decode_frame_chk decode_frame
    rw [if_pos rfl, if_pos rfl]
  delta decode_frame_chk decode_frame
  rw [if_neg hd, if_neg hd]
  rw [show readChk s.buffer s.read_idx = some (s.buffer.getD s.read_idx 0) from
    getD_some _ _ (by omega)]
  dsimp only
  by_cases hsel : s.buffer.getD s.read_idx 0 ≠ 2 ∧ s.buffer.getD s.read_idx 0 ≠ 3 ∧
      s.buffer.getD s.read_idx 0 ≠ 4
  · rw [if_pos hsel, if_pos hsel]
  rw [if_neg hsel, if_neg hsel]
  by_cases h4 : s.buffer.getD s.read_idx 0 = 4
  · rw [if_pos h4, if_pos h4]
  rw [if_neg h4, if_neg h4]
  by_cases hlt : d < s.buffer.getD s.read_idx 0
  · rw [if_pos hlt, if_pos hlt]
  rw [if_neg hlt, if_neg hlt]
  by_cases hb2 : s.buffer.getD s.read_idx 0 = 2
  · rw [if_pos hb2, if_pos hb2]
    rw [show readChk s.buffer (s.read_idx + 1) =
      some (s.buffer.getD (s.read_idx + 1) 0) from getD_some _ _ (by omega)]
    dsimp only
    by_cases hl0 : s.buffer.getD (s.read_idx + 1) 0 = 0
    · rw [if_pos hl0, if_pos hl0]
    · rw [if_neg hl0, if_neg hl0]
      exact decode_tail_chk_eq N s d _ _ hle
  · rw [if_neg hb2, if_neg hb2]
    have hb3 : s.buffer.getD s.read_idx 0 = 3 := by omega
    rw [show readChk s.buffer (s.read_idx + 1) =
        some (s.buffer.getD (s.read_idx + 1) 0) from getD_some _ _ (by omega),
      show readChk s.buffer (s.read_idx + 2) =
        some (s.buffer.getD (s.read_idx + 2) 0) from getD_some _ _ (by omega)]
    dsimp only
    by_cases hl255 : 256 * s.buffer.getD (s.read_idx + 1) 0 +
        s.buffer.getD (s.read_idx + 2) 0 < 255
    · rw [if_pos hl255, if_pos hl255]
    · rw [if_neg hl255, if_neg hl255]
      exact decode_tail_chk_eq N s d _ _ hle

theorem scanLoopChk_eq (N : ℕ) : ∀ (fuel : ℕ) (s : BinCrc) (la : ℕ)
    (acc : List (List ℕ)), s.read_idx + la = s.write_idx →
    s.write_idx ≤ s.buffer.length →
    scanLoopChk N fuel s la acc = some (scanLoop N fuel s la acc) := by
  intro fuel
  induction fuel with
  | zero => intro s la acc hla hwl; rfl
  | succ f ih =>
    intro s la acc hla hwl
    rcases hdec : decode_frame N s la with ⟨s1, res⟩
    have hbuf : s1.buffer = s.buffer := by rw [← decode_buffer N s la, hdec]
    have hread : s1.read_idx = s.read_idx := by rw [← decode_read N s la, hdec]
    have hwrite : s1.write_idx = s.write_idx := by rw [← decode_write N s la, hdec]
    have hchk : decode_frame_chk N s la = some (s1, res) := by
      rw [decode_chk_eq N s la (by omega), hdec]
    cases res with
    | NeedMoreBytes => simp only [scanLoopChk, scanLoop, hchk, hdec]
    | InvalidData =>
      have hpos : 1 ≤ la := (decode_invalid_facts N s la (by rw [hdec])).1
      simp only [scanLoopChk, scanLoop, hchk, hdec]
      exact ih { s1 with read_idx := s1.read_idx + 1 } (la - 1) acc
        (by dsimp only; omega) (by dsimp only; rw [hbuf]; omega)
    | Consumed count start stop =>
      have hc := decode_consumed_facts N s la count start stop (by rw [hdec])
      have hslice : sliceChk s1.buffer start stop =
          some ((s1.buffer.drop start).take (stop - start)) := by
        delta sliceChk
        rw [if_pos ⟨by omega, by rw [hbuf]; omega⟩]
      simp only [scanLoopChk, scanLoop, hchk, hdec, hslice]
      exact ih { s1 with read_idx := s1.read_idx + count } (la - count)
        (acc ++ [(s1.buffer.drop start).take (stop - start)])
        (by dsimp only; omega) (by dsimp only; rw [hbuf]; omega)

theorem eat_byte_chk_eq (N : ℕ) (s : BinCrc) (b : ℕ) (hN : 1 ≤ N) (hwf : wf N s) :
    eat_byte_chk N s b = some (eat_byte N s b) := by
  obtain ⟨h1, h2, h3⟩ := hwf
  have hwN : s.write_idx ≤ N := by omega
  delta eat_byte_chk eat_byte
  dsimp only
  by_cases hsat : N ≤ s.write_idx - s.read_idx
  · rw [if_pos hsat, if_pos hsat]
    rw [show setChk s.buffer 0 b = some (s.buffer.set 0 b) from by
      delta setChk; rw [if_pos (by omega)]]
  · rw [if_neg hsat, if_neg hsat]
    by_cases hcomp : N ≤ s.write_idx
    · rw [if_pos hcomp, if_pos hcomp]
      rw [show compactChk s.buffer s.read_idx (s.write_idx - s.read_idx) =
          some (compact s.buffer s.read_idx (s.write_idx - s.read_idx)) from by
        delta compactChk; rw [if_pos (by omega)]]
      dsimp only
      rw [show setChk (compact s.buffer s.read_idx (s.write_idx - s.read_idx))
          (s.write_idx - s.read_idx) b =
          some ((compact s.buffer s.read_idx (s.write_idx - s.read_idx)).set
            (s.write_idx - s.read_idx) b) from by
        delta setChk
        rw [if_pos (by rw [compact_length _ _ _ (by omega)]; omega)]]
      dsimp only
      by_cases hbl : 1 < s.bytes_left
      · rw [if_pos hbl, if_pos hbl]
      · rw [if_neg hbl, if_neg hbl]
        rw [scanLoopChk_eq N (s.write_idx - s.read_idx + 1)
          { s with
              buffer := (compact s.buffer s.read_idx (s.write_idx - s.read_idx)).set
                (s.write_idx - s.read_idx) b,
              read_idx := 0,
              write_idx := s.write_idx - s.read_idx + 1 }
          (s.write_idx - s.read_idx + 1) [] (by dsimp only; omega)
          (by
            dsimp only
            rw [List.length_set, compact_length _ _ _ (by omega)]
            omega)]
        rcases hscan : scanLoop N (s.write_idx - s.read_idx + 1)
            { s with
                buffer := (compact s.buffer s.read_idx (s.write_idx - s.read_idx)).set
                  (s.write_idx - s.read_idx) b,
                read_idx := 0,
                write_idx := s.write_idx - s.read_idx + 1 }
            (s.write_idx - s.read_idx + 1) [] with ⟨s3, out, early⟩
        dsimp only
        cases early
        · rw [if_neg (by simp), if_neg (by omega : ¬s.write_idx - s.read_idx + 1 = 0),
            if_neg (by simp), if_neg (by omega : ¬s.write_idx - s.read_idx + 1 = 0)]
        · rw [if_pos rfl, if_pos rfl]
    · rw [if_neg hcomp, if_neg hcomp]
      dsimp only
      rw [show setChk s.buffer s.write_idx b = some (s.buffer.set s.write_idx b) from by
        delta setChk; rw [if_pos (by omega)]]
      dsimp only
      by_cases hbl : 1 < s.bytes_left
      · rw [if_pos hbl, if_pos hbl]
      · rw [if_neg hbl, if_neg hbl]
        rw [scanLoopChk_eq N (s.write_idx - s.read_idx + 1)
          { s with buffer := s.buffer.set s.write_idx b, write_idx := s.write_idx + 1 }
          (s.write_idx - s.read_idx + 1) [] (by dsimp only; omega)
          (by dsimp only; rw [List.length_set]; omega)]
        rcases hscan : scanLoop N (s.write_idx - s.read_idx + 1)
            { s with buffer := s.buffer.set s.write_idx b, write_idx := s.write_idx + 1 }
            (s.write_idx - s.read_idx + 1) [] with ⟨s3, out, early⟩
        dsimp only
        cases early
        · rw [if_neg (by simp), if_neg (by omega : ¬s.write_idx - s.read_idx + 1 = 0),
            if_neg (by simp), if_neg (by omega : ¬s.write_idx - s.read_idx + 1 = 0)]
        · rw [if_pos rfl, if_pos rfl]

theorem reachable_wf (N : ℕ) (hN : 1 ≤ N) : ∀ s, Reachable N s → wf N s := by
  intro s h
  induction h with
  | new => exact ⟨le_rfl, by dsimp only [BinCrc.new]; omega, by simp [BinCrc.new]⟩
  | step s b hs ih => exact eat_byte_wf N s b hN ih

/-- C6: for every reachable decoder state, one eat_byte step keeps the
cursors ordered and within capacity (read_idx ≤ write_idx ≤ N, so the pending
count never exceeds N), every buffer access of the step stays inside the
N-byte array (the bounds-checked interpreter agrees and never fails), and a
call arriving with bytes_pending at N resets the buffer to hold only the
incoming byte. -/
theorem eat_byte_invariants (N : ℕ) (s : BinCrc) (b : ℕ) (hN : 1 ≤ N)
    (hs : Reachable N s) :
    ((eat_byte N s b).1.read_idx ≤ (eat_byte N s b).1.write_idx ∧
      (eat_byte N s b).1.write_idx ≤ N ∧
      (eat_byte N s b).1.write_idx - (eat_byte N s b).1.read_idx ≤ N) ∧
    eat_byte_chk N s b = some (eat_byte N s b) ∧
    (N ≤ s.write_idx - s.read_idx →
      (eat_byte N s b).1 = ⟨s.buffer.set 0 b, 0, 1, 0⟩) := by
  have hwf := reachable_wf N hN s hs
  have hwf2 := eat_byte_wf N s b hN hwf
  obtain ⟨g1, g2, g3⟩ := hwf2
  refine ⟨⟨g1, by omega, by omega⟩, eat_byte_chk_eq N s b hN hwf, fun hsat => ?_⟩
  rw [eat_byte_eq_sat N s b hsat]

/-- Witness for C6 at a concrete input: one byte into a fresh capacity-4
decoder. -/
theorem eat_byte_invariants_witness :
    ((1 : ℕ) ≤ 4) ∧
    (((eat_byte 4 (BinCrc.new 4) 7).1.read_idx ≤ (eat_byte 4 (BinCrc.new 4) 7).1.write_idx ∧
        (eat_byte 4 (BinCrc.new 4) 7).1.write_idx ≤ 4 ∧
        (eat_byte 4 (BinCrc.new 4) 7).1.write_idx -
          (eat_byte 4 (BinCrc.new 4) 7).1.read_idx ≤ 4) ∧
      eat_byte_chk 4 (BinCrc.new 4) 7 = some (eat_byte 4 (BinCrc.new 4) 7) ∧
      (4 ≤ (BinCrc.new 4).write_idx - (BinCrc.new 4).read_idx →
        (eat_byte 4 (BinCrc.new 4) 7).1 = ⟨(BinCrc.new 4).buffer.set 0 7, 0, 1, 0⟩)) :=
  ⟨by decide, eat_byte_invariants 4 (BinCrc.new 4) 7 (by decide) Reachable.new⟩

theorem decode_nmb_succ (N : ℕ) (s t : BinCrc) (d L : ℕ) (hL : 2 ≤ L)
    (h2 : (decode_frame N s d).2 = .NeedMoreBytes)
    (hbl : (decode_frame N s d).1.bytes_left = L)
    (hwin : ∀ i, i < d → t.buffer.getD (t.read_idx + i) 0 = s.buffer.getD (s.read_idx + i) 0) :
    decode_frame N t (d + 1) = ({ t with bytes_left := L - 1 }, .NeedMoreBytes) := by
  rcases decode_nmb_facts N s d h2 with
    ⟨hd0, hbl1⟩ | ⟨hd, hb, hlt, hbl2⟩ | ⟨hd, hb, hge, hne, hN2, hlt, hbl2⟩ |
    ⟨hd, hb, hge, h255, hN2, hlt, hbl2⟩
  · omega
  · have hb0t : t.buffer.getD t.read_idx 0 = s.buffer.getD s.read_idx 0 := by
      have h := hwin 0 (by omega)
      rwa [getD_idx_congr t.buffer _ t.read_idx (by omega),
        getD_idx_congr s.buffer _ s.read_idx (by omega)] at h
    rw [decode_eval_hdr N t (d + 1) (by omega) (by rw [hb0t]; exact hb)
      (by rw [hb0t]; omega)]
    rw [show t.buffer.getD t.read_idx 0 - (d + 1) = L - 1 from by rw [hb0t]; omega]
  · have hb0t : t.buffer.getD t.read_idx 0 = s.buffer.getD s.read_idx 0 := by
      have h := hwin 0 (by omega)
      rwa [getD_idx_congr t.buffer _ t.read_idx (by omega),
        getD_idx_congr s.buffer _ s.read_idx (by omega)] at h
    have hl1t : t.buffer.getD (t.read_idx + 1) 0 = s.buffer.getD (s.read_idx + 1) 0 :=
      hwin 1 (by omega)
    rw [decode_eval_body_1b N t (d + 1) (by omega) (by rw [hb0t, hb]) (by omega)
      (by rw [hl1t]; exact hne) (by rw [hl1t]; exact hN2) (by rw [hl1t]; omega)]
    rw [show t.buffer.getD (t.read_idx + 1) 0 + 2 + 3 - (d + 1) = L - 1 from by
      rw [hl1t]; omega]
  · have hb0t : t.buffer.getD t.read_idx 0 = s.buffer.getD s.read_idx 0 := by
      have h := hwin 0 (by omega)
      rwa [getD_idx_congr t.buffer _ t.read_idx (by omega),
        getD_idx_congr s.buffer _ s.read_idx (by omega)] at h
    have hl1t : t.buffer.getD (t.read_idx + 1) 0 = s.buffer.getD (s.read_idx + 1) 0 :=
      hwin 1 (by omega)
    have hl2t : t.buffer.getD (t.read_idx + 2) 0 = s.buffer.getD (s.read_idx + 2) 0 :=
      hwin 2 (by omega)
    rw [decode_eval_body_2b N t (d + 1) (by omega) (by rw [hb0t, hb]) (by omega)
      (by rw [hl1t, hl2t]; exact h255) (by rw [hl1t, hl2t]; exact hN2)
      (by rw [hl1t, hl2t]; omega)]
    rw [show 256 * t.buffer.getD (t.read_idx + 1) 0 + t.buffer.getD (t.read_idx + 2) 0 +
        3 + 3 - (d + 1) = L - 1 from by rw [hl1t, hl2t]; omega]

theorem scanLoop_inv (N : ℕ) : ∀ (fuel : ℕ) (s : BinCrc) (la : ℕ)
    (acc : List (List ℕ)), s.read_idx + la = s.write_idx → s.bytes_left ≤ 1 →
    (1 < (scanLoop N fuel s la acc).1.bytes_left →
      (decode_frame N (scanLoop N fuel s la acc).1
          ((scanLoop N fuel s la acc).1.write_idx -
            (scanLoop N fuel s la acc).1.read_idx)).2 = .NeedMoreBytes ∧
      (decode_frame N (scanLoop N fuel s la acc).1
          ((scanLoop N fuel s la acc).1.write_idx -
            (scanLoop N fuel s la acc).1.read_idx)).1.bytes_left =
        (scanLoop N fuel s la acc).1.bytes_left) := by
  intro fuel
  induction fuel with
  | zero =>
    intro s la acc hla hbl hlt
    simp only [scanLoop] at hlt
    omega
  | succ f ih =>
    intro s la acc hla hbl
    obtain ⟨B, r, w, bl⟩ := s
    rcases hdec : decode_frame N ⟨B, r, w, bl⟩ la with ⟨s1, res⟩
    have hbuf : s1.buffer = B := by
      have h := decode_buffer N ⟨B, r, w, bl⟩ la
      rw [hdec] at h
      exact h
    have hread : s1.read_idx = r := by
      have h := decode_read N ⟨B, r, w, bl⟩ la
      rw [hdec] at h
      exact h
    have hwrite : s1.write_idx = w := by
      have h := decode_write N ⟨B, r, w, bl⟩ la
      rw [hdec] at h
      exact h
    cases res with
    | NeedMoreBytes =>
      simp only [scanLoop, hdec]
      intro hlt
      obtain ⟨bl1, hshape⟩ := decode_shape N ⟨B, r, w, bl⟩ la
      have hs1 : s1 = ⟨B, r, w, bl1⟩ := by
        have h := hshape
        rw [hdec] at h
        exact h
      have harg : s1.write_idx - s1.read_idx = la := by
        simp only at hla
        omega
      have heq : decode_frame N s1 (s1.write_idx - s1.read_idx) =
          decode_frame N ⟨B, r, w, bl⟩ la := by
        rw [harg, hs1]
        exact decode_bl_irrel N B r w bl1 bl la
      rw [heq, hdec]
      exact ⟨rfl, by rw [hs1]⟩
    | InvalidData =>
      have hfacts := decode_invalid_facts N ⟨B, r, w, bl⟩ la (by rw [hdec])
      have hbl1 : s1.bytes_left = 0 := by
        have h := hfacts.2
        rwa [hdec] at h
      have hpre : ({ s1 with read_idx := s1.read_idx + 1 } : BinCrc).read_idx + (la - 1) =
          ({ s1 with read_idx := s1.read_idx + 1 } : BinCrc).write_idx := by
        dsimp only
        simp only at hla
        omega
      simp only [scanLoop, hdec]
      exact ih { s1 with read_idx := s1.read_idx + 1 } (la - 1) acc hpre
        (by dsimp only; omega)
    | Consumed count start stop =>
      have hfacts := decode_consumed_facts N ⟨B, r, w, bl⟩ la count start stop (by rw [hdec])
      have hbl1 : s1.bytes_left = 0 := by
        have h := hfacts.1
        rwa [hdec] at h
      have hcle : count ≤ la := hfacts.2.2.1
      have hpre : ({ s1 with read_idx := s1.read_idx + count } : BinCrc).read_idx +
          (la - count) = ({ s1 with read_idx := s1.read_idx + count } : BinCrc).write_idx := by
        dsimp only
        simp only at hla
        omega
      simp only [scanLoop, hdec]
      exact ih { s1 with read_idx := s1.read_idx + count } (la - count)
        (acc ++ [(s1.buffer.drop start).take (stop - start)]) hpre
        (by dsimp only; omega)

theorem eat_step_lockstep (N : ℕ) (s t : BinCrc) (b : ℕ)
    (hbuf : t.buffer = s.buffer) (hread : t.read_idx = s.read_idx)
    (hwrite : t.write_idx = s.write_idx)
    (hwf : wf N s)
    (hinv : 1 < s.bytes_left →
      (decode_frame N s (s.write_idx - s.read_idx)).2 = .NeedMoreBytes ∧
      (decode_frame N s (s.write_idx - s.read_idx)).1.bytes_left = s.bytes_left) :
    (eat_byte N s b).2 = (eat_byte_ns N t b).2 ∧
    (eat_byte_ns N t b).1.buffer = (eat_byte N s b).1.buffer ∧
    (eat_byte_ns N t b).1.read_idx = (eat_byte N s b).1.read_idx ∧
    (eat_byte_ns N t b).1.write_idx = (eat_byte N s b).1.write_idx ∧
    wf N (eat_byte N s b).1 ∧
    (1 < (eat_byte N s b).1.bytes_left →
      (decode_frame N (eat_byte N s b).1
          ((eat_byte N s b).1.write_idx - (eat_byte N s b).1.read_idx)).2 =
        .NeedMoreBytes ∧
      (decode_frame N (eat_byte N s b).1
          ((eat_byte N s b).1.write_idx - (eat_byte N s b).1.read_idx)).1.bytes_left =
        (eat_byte N s b).1.bytes_left) := by
  obtain ⟨hor, hwmax, hlen⟩ := hwf
  by_cases hsat : N ≤ s.write_idx - s.read_idx
  · have hsatt : N ≤ t.write_idx - t.read_idx := by omega
    rw [eat_byte_eq_sat N s b hsat, eat_byte_ns_eq_sat N t b hsatt]
    refine ⟨rfl, by dsimp only; rw [hbuf], rfl, rfl,
      ⟨by dsimp only; omega, by dsimp only; exact le_max_right N 1,
        by dsimp only; rw [List.length_set, hlen]⟩, ?_⟩
    intro h
    dsimp only at h
    omega
  push_neg at hsat
  have hN : 1 ≤ N := by omega
  have hmaxN : max N 1 = N := by omega
  by_cases hcomp : N ≤ s.write_idx
  · have hcompt : N ≤ t.write_idx := by omega
    rw [eat_byte_eq_compact N s b (by omega) hcomp,
      eat_byte_ns_eq_compact N t b (by omega) hcompt]
    have hpt : t.write_idx - t.read_idx = s.write_idx - s.read_idx := by omega
    rw [hpt]
    have ht2 : ({ t with buffer := (compact t.buffer t.read_idx (s.write_idx - s.read_idx)).set (s.write_idx - s.read_idx) b, read_idx := 0, write_idx := s.write_idx - s.read_idx + 1 } : BinCrc) =
        ⟨(compact s.buffer s.read_idx (s.write_idx - s.read_idx)).set
            (s.write_idx - s.read_idx) b, 0, s.write_idx - s.read_idx + 1,
          t.bytes_left⟩ := by
      rw [hbuf, hread]
    rw [ht2]
    by_cases hbl : 1 < s.bytes_left
    · rw [if_pos hbl]
      obtain ⟨hnmb, hLbl⟩ := hinv hbl
      have hwin : ∀ i, i < s.write_idx - s.read_idx →
          (⟨(compact s.buffer s.read_idx (s.write_idx - s.read_idx)).set
              (s.write_idx - s.read_idx) b, 0, s.write_idx - s.read_idx + 1,
            t.bytes_left⟩ : BinCrc).buffer.getD
            ((⟨(compact s.buffer s.read_idx (s.write_idx - s.read_idx)).set
              (s.write_idx - s.read_idx) b, 0, s.write_idx - s.read_idx + 1,
              t.bytes_left⟩ : BinCrc).read_idx + i) 0 =
          s.buffer.getD (s.read_idx + i) 0 := by
        intro i hi
        dsimp only
        rw [getD_idx_congr _ (0 + i) i (by omega)]
        rw [getD_set_ne _ _ _ _ (by omega)]
        exact compact_getD s.buffer s.read_idx (s.write_idx - s.read_idx) i hi (by omega)
      have hdect := decode_nmb_succ N s
        ⟨(compact s.buffer s.read_idx (s.write_idx - s.read_idx)).set
            (s.write_idx - s.read_idx) b, 0, s.write_idx - s.read_idx + 1,
          t.bytes_left⟩
        (s.write_idx - s.read_idx) s.bytes_left (by omega) hnmb hLbl hwin
      have hscan : scanLoop N (s.write_idx - s.read_idx + 1)
          ⟨(compact s.buffer s.read_idx (s.write_idx - s.read_idx)).set
              (s.write_idx - s.read_idx) b, 0, s.write_idx - s.read_idx + 1,
            t.bytes_left⟩
          (s.write_idx - s.read_idx + 1) [] =
          ({ (⟨(compact s.buffer s.read_idx (s.write_idx - s.read_idx)).set
              (s.write_idx - s.read_idx) b, 0, s.write_idx - s.read_idx + 1,
              t.bytes_left⟩ : BinCrc) with bytes_left := s.bytes_left - 1 },
            ([] : List (List ℕ)), true) := by
        simp only [scanLoop, hdect]
      rw [hscan]
      refine ⟨rfl, rfl, rfl, rfl,
        ⟨by dsimp only; omega, by dsimp only; rw [hmaxN]; omega,
          by dsimp only; rw [List.length_set,
            compact_length s.buffer s.read_idx (s.write_idx - s.read_idx) (by omega),
            hlen]⟩, ?_⟩
      intro hlt
      dsimp only at hlt ⊢
      have harg : s.write_idx - s.read_idx + 1 - 0 = s.write_idx - s.read_idx + 1 := by
        omega
      rw [harg]
      have hwin2 : ∀ i, i < s.write_idx - s.read_idx →
          ({ s with buffer := (compact s.buffer s.read_idx (s.write_idx - s.read_idx)).set (s.write_idx - s.read_idx) b, read_idx := 0, write_idx := s.write_idx - s.read_idx + 1, bytes_left := s.bytes_left - 1 } : BinCrc).buffer.getD
            (({ s with buffer := (compact s.buffer s.read_idx (s.write_idx - s.read_idx)).set (s.write_idx - s.read_idx) b, read_idx := 0, write_idx := s.write_idx - s.read_idx + 1, bytes_left := s.bytes_left - 1 } : BinCrc).read_idx + i) 0 =
          s.buffer.getD (s.read_idx + i) 0 := by
        intro i hi
        dsimp only
        rw [getD_idx_congr _ (0 + i) i (by omega)]
        rw [getD_set_ne _ _ _ _ (by omega)]
        exact compact_getD s.buffer s.read_idx (s.write_idx - s.read_idx) i hi (by omega)
      have hdc := decode_nmb_succ N s
        ({ s with buffer := (compact s.buffer s.read_idx (s.write_idx - s.read_idx)).set (s.write_idx - s.read_idx) b, read_idx := 0, write_idx := s.write_idx - s.read_idx + 1, bytes_left := s.bytes_left - 1 } : BinCrc)
        (s.write_idx - s.read_idx) s.bytes_left (by omega) hnmb hLbl hwin2
      rw [hdc]
      exact ⟨rfl, rfl⟩
    · rw [if_neg hbl]
      have hs2 : ({ s with buffer := (compact s.buffer s.read_idx (s.write_idx - s.read_idx)).set (s.write_idx - s.read_idx) b, read_idx := 0, write_idx := s.write_idx - s.read_idx + 1 } : BinCrc) =
          ⟨(compact s.buffer s.read_idx (s.write_idx - s.read_idx)).set
              (s.write_idx - s.read_idx) b, 0, s.write_idx - s.read_idx + 1,
            s.bytes_left⟩ := rfl
      rw [hs2]
      rw [scanLoop_bl_irrel N (s.write_idx - s.read_idx)
        ((compact s.buffer s.read_idx (s.write_idx - s.read_idx)).set
          (s.write_idx - s.read_idx) b)
        0 (s.write_idx - s.read_idx + 1) t.bytes_left s.bytes_left
        (s.write_idx - s.read_idx + 1) []]
      obtain ⟨hb, hw, hr, la2, hla2, hfin⟩ := scanLoop_state N
        (s.write_idx - s.read_idx + 1)
        ⟨(compact s.buffer s.read_idx (s.write_idx - s.read_idx)).set
            (s.write_idx - s.read_idx) b, 0, s.write_idx - s.read_idx + 1,
          s.bytes_left⟩
        (s.write_idx - s.read_idx + 1) [] (by dsimp only; omega)
      have hinv2 := scanLoop_inv N (s.write_idx - s.read_idx + 1)
        ⟨(compact s.buffer s.read_idx (s.write_idx - s.read_idx)).set
            (s.write_idx - s.read_idx) b, 0, s.write_idx - s.read_idx + 1,
          s.bytes_left⟩
        (s.write_idx - s.read_idx + 1) [] (by dsimp only; omega) (by dsimp only; omega)
      dsimp only at hb hw hfin
      refine ⟨rfl, rfl, rfl, rfl, ⟨by dsimp only; omega,
        by dsimp only; rw [hw, hmaxN]; omega,
        by dsimp only; rw [hb, List.length_set,
          compact_length s.buffer s.read_idx (s.write_idx - s.read_idx) (by omega),
          hlen]⟩, hinv2⟩
  · have hcompt : ¬N ≤ t.write_idx := by omega
    rw [eat_byte_eq_main N s b hcomp, eat_byte_ns_eq_main N t b hcompt]
    have hpt : t.write_idx - t.read_idx = s.write_idx - s.read_idx := by omega
    rw [hpt]
    have ht2 : ({ t with buffer := t.buffer.set t.write_idx b, write_idx := t.write_idx + 1 } : BinCrc) =
        ⟨s.buffer.set s.write_idx b, s.read_idx, s.write_idx + 1, t.bytes_left⟩ := by
      rw [hbuf, hread, hwrite]
    rw [ht2]
    by_cases hbl : 1 < s.bytes_left
    · rw [if_pos hbl]
      obtain ⟨hnmb, hLbl⟩ := hinv hbl
      have hwin : ∀ i, i < s.write_idx - s.read_idx →
          (⟨s.buffer.set s.write_idx b, s.read_idx, s.write_idx + 1,
              t.bytes_left⟩ : BinCrc).buffer.getD
            ((⟨s.buffer.set s.write_idx b, s.read_idx, s.write_idx + 1,
              t.bytes_left⟩ : BinCrc).read_idx + i) 0 =
          s.buffer.getD (s.read_idx + i) 0 := by
        intro i hi
        dsimp only
        exact getD_set_ne _ _ _ _ (by omega)
      have hdect := decode_nmb_succ N s
        ⟨s.buffer.set s.write_idx b, s.read_idx, s.write_idx + 1, t.bytes_left⟩
        (s.write_idx - s.read_idx) s.bytes_left (by omega) hnmb hLbl hwin
      have hscan : scanLoop N (s.write_idx - s.read_idx + 1)
          ⟨s.buffer.set s.write_idx b, s.read_idx, s.write_idx + 1, t.bytes_left⟩
          (s.write_idx - s.read_idx + 1) [] =
          ({ (⟨s.buffer.set s.write_idx b, s.read_idx, s.write_idx + 1,
              t.bytes_left⟩ : BinCrc) with bytes_left := s.bytes_left - 1 },
            ([] : List (List ℕ)), true) := by
        simp only [scanLoop, hdect]
      rw [hscan]
      refine ⟨rfl, rfl, rfl, rfl,
        ⟨by dsimp only; omega, by dsimp only; rw [hmaxN]; omega,
          by dsimp only; rw [List.length_set, hlen]⟩, ?_⟩
      intro hlt
      dsimp only at hlt ⊢
      have harg : s.write_idx + 1 - s.read_idx = s.write_idx - s.read_idx + 1 := by
        omega
      rw [harg]
      have hwin2 : ∀ i, i < s.write_idx - s.read_idx →
          ({ s with buffer := s.buffer.set s.write_idx b, write_idx := s.write_idx + 1, bytes_left := s.bytes_left - 1 } : BinCrc).buffer.getD
            (({ s with buffer := s.buffer.set s.write_idx b, write_idx := s.write_idx + 1, bytes_left := s.bytes_left - 1 } : BinCrc).read_idx + i) 0 =
          s.buffer.getD (s.read_idx + i) 0 := by
        intro i hi
        dsimp only
        exact getD_set_ne _ _ _ _ (by omega)
      have hdc := decode_nmb_succ N s
        ({ s with buffer := s.buffer.set s.write_idx b, write_idx := s.write_idx + 1, bytes_left := s.bytes_left - 1 } : BinCrc)
        (s.write_idx - s.read_idx) s.bytes_left (by omega) hnmb hLbl hwin2
      rw [hdc]
      exact ⟨rfl, rfl⟩
    · rw [if_neg hbl]
      have hs2 : ({ s with buffer := s.buffer.set s.write_idx b, write_idx := s.write_idx + 1 } : BinCrc) =
          ⟨s.buffer.set s.write_idx b, s.read_idx, s.write_idx + 1,
            s.bytes_left⟩ := rfl
      rw [hs2]
      rw [scanLoop_bl_irrel N (s.write_idx - s.read_idx) (s.buffer.set s.write_idx b)
        s.read_idx (s.write_idx + 1) t.bytes_left s.bytes_left
        (s.write_idx - s.read_idx + 1) []]
      obtain ⟨hb, hw, hr, la2, hla2, hfin⟩ := scanLoop_state N
        (s.write_idx - s.read_idx + 1)
        ⟨s.buffer.set s.write_idx b, s.read_idx, s.write_idx + 1, s.bytes_left⟩
        (s.write_idx - s.read_idx + 1) [] (by dsimp only; omega)
      have hinv2 := scanLoop_inv N (s.write_idx - s.read_idx + 1)
        ⟨s.buffer.set s.write_idx b, s.read_idx, s.write_idx + 1, s.bytes_left⟩
        (s.write_idx - s.read_idx + 1) [] (by dsimp only; omega)
        (by dsimp only; omega)
      dsimp only at hb hw hfin
      refine ⟨rfl, rfl, rfl, rfl, ⟨by dsimp only; omega,
        by dsimp only; rw [hw, hmaxN]; omega,
        by dsimp only; rw [hb, List.length_set, hlen]⟩, hinv2⟩

theorem feed_acc (N : ℕ) : ∀ (bs : List ℕ) (s : BinCrc) (acc : List (List ℕ)),
    List.foldl (fun st b => ((eat_byte N st.1 b).1, st.2 ++ (eat_byte N st.1 b).2))
      (s, acc) bs =
    ((feed N s bs).1, acc ++ (feed N s bs).2) := by
  intro bs
  induction bs with
  | nil =>
    intro s acc
    simp [feed]
  | cons b bs ih =>
    intro s acc
    have hstep : feed N s (b :: bs) =
        List.foldl (fun st b => ((eat_byte N st.1 b).1, st.2 ++ (eat_byte N st.1 b).2))
          ((eat_byte N s b).1, [] ++ (eat_byte N s b).2) bs := by
      unfold feed
      simp only [List.foldl_cons]
    simp only [List.foldl_cons]
    rw [ih (eat_byte N s b).1 (acc ++ (eat_byte N s b).2), hstep,
      ih (eat_byte N s b).1 ([] ++ (eat_byte N s b).2)]
    simp

theorem feed_ns_acc (N : ℕ) : ∀ (bs : List ℕ) (s : BinCrc) (acc : List (List ℕ)),
    List.foldl (fun st b => ((eat_byte_ns N st.1 b).1, st.2 ++ (eat_byte_ns N st.1 b).2))
      (s, acc) bs =
    ((feed_ns N s bs).1, acc ++ (feed_ns N s bs).2) := by
  intro bs
  induction bs with
  | nil =>
    intro s acc
    simp [feed_ns]
  | cons b bs ih =>
    intro s acc
    have hstep : feed_ns N s (b :: bs) =
        List.foldl (fun st b => ((eat_byte_ns N st.1 b).1, st.2 ++ (eat_byte_ns N st.1 b).2))
          ((eat_byte_ns N s b).1, [] ++ (eat_byte_ns N s b).2) bs := by
      unfold feed_ns
      simp only [List.foldl_cons]
    simp only [List.foldl_cons]
    rw [ih (eat_byte_ns N s b).1 (acc ++ (eat_byte_ns N s b).2), hstep,
      ih (eat_byte_ns N s b).1 ([] ++ (eat_byte_ns N s b).2)]
    simp

theorem feed_cons (N : ℕ) (s : BinCrc) (b : ℕ) (bs : List ℕ) :
    feed N s (b :: bs) = ((feed N (eat_byte N s b).1 bs).1,
      (eat_byte N s b).2 ++ (feed N (eat_byte N s b).1 bs).2) := by
  unfold feed
  simp only [List.foldl_cons]
  rw [feed_acc N bs (eat_byte N s b).1 ([] ++ (eat_byte N s b).2)]
  simp
  exact ⟨rfl, rfl⟩

theorem feed_ns_cons (N : ℕ) (s : BinCrc) (b : ℕ) (bs : List ℕ) :
    feed_ns N s (b :: bs) = ((feed_ns N (eat_byte_ns N s b).1 bs).1,
      (eat_byte_ns N s b).2 ++ (feed_ns N (eat_byte_ns N s b).1 bs).2) := by
  unfold feed_ns
  simp only [List.foldl_cons]
  rw [feed_ns_acc N bs (eat_byte_ns N s b).1 ([] ++ (eat_byte_ns N s b).2)]
  simp
  exact ⟨rfl, rfl⟩

theorem feed_lockstep (N : ℕ) : ∀ (bs : List ℕ) (s t : BinCrc),
    t.buffer = s.buffer → t.read_idx = s.read_idx → t.write_idx = s.write_idx →
    wf N s →
    (1 < s.bytes_left →
      (decode_frame N s (s.write_idx - s.read_idx)).2 = .NeedMoreBytes ∧
      (decode_frame N s (s.write_idx - s.read_idx)).1.bytes_left = s.bytes_left) →
    (feed N s bs).2 = (feed_ns N t bs).2 := by
  intro bs
  induction bs with
  | nil =>
    intro s t _ _ _ _ _
    rfl
  | cons b bs ih =>
    intro s t hbuf hread hwrite hwf hinv
    obtain ⟨he, hb2, hr2, hw2, hwf2, hinv2⟩ :=
      eat_step_lockstep N s t b hbuf hread hwrite hwf hinv
    rw [feed_cons N s b bs, feed_ns_cons N t b bs]
    dsimp only
    rw [he, ih (eat_byte N s b).1 (eat_byte_ns N t b).1 hb2 hr2 hw2 hwf2 hinv2]

/-- C5: the `bytes_left > 1` early return of `eat_byte` is a pure cost
optimization — for every capacity and every input byte sequence fed to a
fresh decoder, the payload sequence handed to the sink is identical to that
of the variant `eat_byte_ns` that omits the shortcut and always runs the
scanning loop. -/
theorem bytes_left_shortcut_equiv (N : ℕ) (bs : List ℕ) :
    (feed N (BinCrc.new N) bs).2 = (feed_ns N (BinCrc.new N) bs).2 :=
  feed_lockstep N bs (BinCrc.new N) (BinCrc.new N) rfl rfl rfl
    ⟨Nat.le_refl 0, Nat.zero_le _, List.length_replicate N 0⟩
    (by intro h; simp only [BinCrc.new] at h; omega)

theorem rt_skip (N : ℕ) (p : List ℕ) (k B : ℕ) (hB : 1 < B)
    (hkN : k < N) (hkW : k < (wire_frame p).length) :
    eat_byte N ⟨(wire_frame p).take k ++ List.replicate (N - k) 0, 0, k, B⟩
        ((wire_frame p).getD k 0) =
      (⟨(wire_frame p).take (k + 1) ++ List.replicate (N - (k + 1)) 0, 0, k + 1,
        B - 1⟩, []) := by
  have hmain := eat_byte_eq_main N
    ⟨(wire_frame p).take k ++ List.replicate (N - k) 0, 0, k, B⟩
    ((wire_frame p).getD k 0) (by dsimp only; omega)
  dsimp only at hmain
  rw [if_pos hB] at hmain
  rw [hmain, prefixBuf_set (wire_frame p) k N hkN hkW]

theorem rt_base (N : ℕ) (p : List ℕ) (hp1 : 1 ≤ p.length)
    (hfit : (wire_frame p).length ≤ N) :
    feed N (BinCrc.new N) ((wire_frame p).take 1) =
      (⟨(wire_frame p).take 1 ++ List.replicate (N - 1) 0, 0, 1,
        hdrLen p - 1⟩, []) := by
  have hH : hdrLen p = 2 ∨ hdrLen p = 3 := by
    unfold hdrLen
    split_ifs <;> simp
  have h2H : 2 ≤ hdrLen p := by rcases hH with h | h <;> omega
  have hL := wire_frame_length p
  have hN6 : 6 ≤ N := by omega
  have hWtake : (wire_frame p).take 1 = [(wire_frame p).getD 0 0] :=
    take_succ_getD (wire_frame p) 0 (by omega)
  conv_lhs => rw [hWtake]
  have hfeed1 : feed N (BinCrc.new N) [(wire_frame p).getD 0 0] =
      ((eat_byte N ⟨List.replicate N 0, 0, 0, 0⟩ ((wire_frame p).getD 0 0)).1,
        [] ++ (eat_byte N ⟨List.replicate N 0, 0, 0, 0⟩ ((wire_frame p).getD 0 0)).2) :=
    rfl
  rw [hfeed1]
  have hmain := eat_byte_eq_main N ⟨List.replicate N 0, 0, 0, 0⟩
    ((wire_frame p).getD 0 0) (by dsimp only; omega)
  dsimp only at hmain
  simp only [Nat.sub_zero] at hmain
  rw [if_neg (by omega : ¬(1:ℕ) < 0)] at hmain
  have hbuf0 : (List.replicate N 0).set 0 ((wire_frame p).getD 0 0) =
      (wire_frame p).take 1 ++ List.replicate (N - 1) 0 :=
    prefixBuf_set (wire_frame p) 0 N (by omega) (by omega)
  rw [hbuf0] at hmain
  rw [hmain]
  have hgd0 : ((wire_frame p).take 1 ++ List.replicate (N - 1) 0).getD 0 0 =
      hdrLen p := by
    rw [prefixBuf_getD (wire_frame p) 1 0 N (by omega) (by omega)]
    rw [wire_getD_zero]
    unfold hdrLen
    split_ifs <;> rfl
  have hdec := decode_eval_hdr N
    ⟨(wire_frame p).take 1 ++ List.replicate (N - 1) 0, 0, 0 + 1, 0⟩ (0 + 1)
    (by omega)
    (by dsimp only; rw [hgd0]; exact hH)
    (by dsimp only; rw [hgd0]; omega)
  have hscan : scanLoop N (0 + 1)
      ⟨(wire_frame p).take 1 ++ List.replicate (N - 1) 0, 0, 0 + 1, 0⟩ (0 + 1) [] =
      ({ (⟨(wire_frame p).take 1 ++ List.replicate (N - 1) 0, 0, 0 + 1,
          0⟩ : BinCrc) with
        bytes_left := (⟨(wire_frame p).take 1 ++ List.replicate (N - 1) 0, 0, 0 + 1,
          0⟩ : BinCrc).buffer.getD
            (⟨(wire_frame p).take 1 ++ List.replicate (N - 1) 0, 0, 0 + 1,
              0⟩ : BinCrc).read_idx 0 - (0 + 1) },
        ([] : List (List ℕ)), true) := by
    simp only [scanLoop, hdec]
  rw [hscan]
  dsimp only
  rw [hgd0]
  rfl

theorem rt_hdr_scan (N : ℕ) (p : List ℕ) (hp1 : 1 ≤ p.length)
    (hp512 : p.length ≤ 512) (hfit : (wire_frame p).length ≤ N) :
    eat_byte N ⟨(wire_frame p).take (hdrLen p - 1) ++
        List.replicate (N - (hdrLen p - 1)) 0, 0, hdrLen p - 1, 1⟩
        ((wire_frame p).getD (hdrLen p - 1) 0) =
      (⟨(wire_frame p).take (hdrLen p) ++ List.replicate (N - hdrLen p) 0, 0,
        hdrLen p, (wire_frame p).length - hdrLen p⟩, []) := by
  have hL := wire_frame_length p
  by_cases hp255 : p.length ≤ 255
  · have hH2 : hdrLen p = 2 := by unfold hdrLen; rw [if_pos hp255]
    rw [hH2] at hL ⊢
    have hN6 : 6 ≤ N := by omega
    simp only [show (2:ℕ) - 1 = 1 from rfl]
    have hmain := eat_byte_eq_main N
      ⟨(wire_frame p).take 1 ++ List.replicate (N - 1) 0, 0, 1, 1⟩
      ((wire_frame p).getD 1 0) (by dsimp only; omega)
    dsimp only at hmain
    simp only [Nat.sub_zero] at hmain
    rw [if_neg (by omega : ¬(1:ℕ) < 1)] at hmain
    have hbuf : ((wire_frame p).take 1 ++ List.replicate (N - 1) 0).set 1
        ((wire_frame p).getD 1 0) =
        (wire_frame p).take 2 ++ List.replicate (N - 2) 0 :=
      prefixBuf_set (wire_frame p) 1 N (by omega) (by omega)
    rw [hbuf] at hmain
    have hgd0 : ((wire_frame p).take 2 ++ List.replicate (N - 2) 0).getD 0 0 = 2 := by
      rw [prefixBuf_getD (wire_frame p) 2 0 N (by omega) (by omega),
        wire_getD_zero, if_pos hp255]
    have hgd1 : ((wire_frame p).take 2 ++ List.replicate (N - 2) 0).getD (0 + 1) 0 =
        p.length := by
      rw [prefixBuf_getD (wire_frame p) 2 (0 + 1) N (by omega) (by omega)]
      rw [getD_idx_congr (wire_frame p) (0 + 1) 1 (by omega)]
      rw [wire_getD_one_1b p hp255]
      exact Nat.mod_eq_of_lt (by omega)
    have hdec := decode_eval_body_1b N
      ⟨(wire_frame p).take 2 ++ List.replicate (N - 2) 0, 0, 1 + 1, 1⟩ (1 + 1)
      (by omega) (by dsimp only; exact hgd0) (by omega)
      (by dsimp only; rw [hgd1]; omega)
      (by dsimp only; rw [hgd1]; omega)
      (by dsimp only; rw [hgd1]; omega)
    have hscan : scanLoop N (1 + 1)
        ⟨(wire_frame p).take 2 ++ List.replicate (N - 2) 0, 0, 1 + 1, 1⟩ (1 + 1) [] =
        ({ (⟨(wire_frame p).take 2 ++ List.replicate (N - 2) 0, 0, 1 + 1,
            1⟩ : BinCrc) with
          bytes_left := (⟨(wire_frame p).take 2 ++ List.replicate (N - 2) 0, 0, 1 + 1,
            1⟩ : BinCrc).buffer.getD
              ((⟨(wire_frame p).take 2 ++ List.replicate (N - 2) 0, 0, 1 + 1,
                1⟩ : BinCrc).read_idx + 1) 0 + 2 + 3 - (1 + 1) },
          ([] : List (List ℕ)), true) := by
      simp only [scanLoop, hdec]
    rw [hmain, hscan]
    dsimp only
    rw [hgd1]
    have hbl : p.length + 2 + 3 - (1 + 1) = (wire_frame p).length - 2 := by omega
    rw [hbl]
  · have hH3 : hdrLen p = 3 := by unfold hdrLen; rw [if_neg hp255]
    rw [hH3] at hL ⊢
    have hN6 : 6 ≤ N := by omega
    simp only [show (3:ℕ) - 1 = 2 from rfl]
    have hval : 256 * (p.length % 65536 / 256) + p.length % 256 = p.length := by
      have h : p.length % 65536 = p.length := Nat.mod_eq_of_lt (by omega)
      rw [h]
      omega
    have hmain := eat_byte_eq_main N
      ⟨(wire_frame p).take 2 ++ List.replicate (N - 2) 0, 0, 2, 1⟩
      ((wire_frame p).getD 2 0) (by dsimp only; omega)
    dsimp only at hmain
    simp only [Nat.sub_zero] at hmain
    rw [if_neg (by omega : ¬(1:ℕ) < 1)] at hmain
    have hbuf : ((wire_frame p).take 2 ++ List.replicate (N - 2) 0).set 2
        ((wire_frame p).getD 2 0) =
        (wire_frame p).take 3 ++ List.replicate (N - 3) 0 :=
      prefixBuf_set (wire_frame p) 2 N (by omega) (by omega)
    rw [hbuf] at hmain
    have hgd0 : ((wire_frame p).take 3 ++ List.replicate (N - 3) 0).getD 0 0 = 3 := by
      rw [prefixBuf_getD (wire_frame p) 3 0 N (by omega) (by omega),
        wire_getD_zero, if_neg hp255]
    have hgd1 : ((wire_frame p).take 3 ++ List.replicate (N - 3) 0).getD (0 + 1) 0 =
        p.length % 65536 / 256 := by
      rw [prefixBuf_getD (wire_frame p) 3 (0 + 1) N (by omega) (by omega)]
      rw [getD_idx_congr (wire_frame p) (0 + 1) 1 (by omega)]
      exact wire_getD_one_2b p hp255
    have hgd2 : ((wire_frame p).take 3 ++ List.replicate (N - 3) 0).getD (0 + 2) 0 =
        p.length % 256 := by
      rw [prefixBuf_getD (wire_frame p) 3 (0 + 2) N (by omega) (by omega)]
      rw [getD_idx_congr (wire_frame p) (0 + 2) 2 (by omega)]
      exact wire_getD_two_2b p hp255
    have hdec := decode_eval_body_2b N
      ⟨(wire_frame p).take 3 ++ List.replicate (N - 3) 0, 0, 2 + 1, 1⟩ (2 + 1)
      (by omega) (by dsimp only; exact hgd0) (by omega)
      (by dsimp only; rw [hgd1, hgd2, hval]; omega)
      (by dsimp only; rw [hgd1, hgd2, hval]; omega)
      (by dsimp only; rw [hgd1, hgd2, hval]; omega)
    have hscan : scanLoop N (2 + 1)
        ⟨(wire_frame p).take 3 ++ List.replicate (N - 3) 0, 0, 2 + 1, 1⟩ (2 + 1) [] =
        ({ (⟨(wire_frame p).take 3 ++ List.replicate (N - 3) 0, 0, 2 + 1,
            1⟩ : BinCrc) with
          bytes_left := 256 * (⟨(wire_frame p).take 3 ++ List.replicate (N - 3) 0, 0,
              2 + 1, 1⟩ : BinCrc).buffer.getD
              ((⟨(wire_frame p).take 3 ++ List.replicate (N - 3) 0, 0, 2 + 1,
                1⟩ : BinCrc).read_idx + 1) 0 +
            (⟨(wire_frame p).take 3 ++ List.replicate (N - 3) 0, 0, 2 + 1,
              1⟩ : BinCrc).buffer.getD
              ((⟨(wire_frame p).take 3 ++ List.replicate (N - 3) 0, 0, 2 + 1,
                1⟩ : BinCrc).read_idx + 2) 0 + 3 + 3 - (2 + 1) },
          ([] : List (List ℕ)), true) := by
      simp only [scanLoop, hdec]
    rw [hmain, hscan]
    dsimp only
    rw [hgd1, hgd2]
    have hbl : 256 * (p.length % 65536 / 256) + p.length % 256 + 3 + 3 - (2 + 1) =
        (wire_frame p).length - 3 := by omega
    rw [hbl]

theorem feed_snoc (N : ℕ) (s : BinCrc) (bs : List ℕ) (b : ℕ) :
    feed N s (bs ++ [b]) = ((eat_byte N (feed N s bs).1 b).1,
      (feed N s bs).2 ++ (eat_byte N (feed N s bs).1 b).2) := by
  unfold feed
  rw [List.foldl_append]
  rfl

theorem rt_feed_take (N : ℕ) (p : List ℕ) (hp1 : 1 ≤ p.length)
    (hp512 : p.length ≤ 512) (hfit : (wire_frame p).length ≤ N) :
    ∀ k, 1 ≤ k → k ≤ (wire_frame p).length - 1 →
    feed N (BinCrc.new N) ((wire_frame p).take k) =
      (⟨(wire_frame p).take k ++ List.replicate (N - k) 0, 0, k,
        if k < hdrLen p then hdrLen p - k else (wire_frame p).length - k⟩, []) := by
  have hH : hdrLen p = 2 ∨ hdrLen p = 3 := by
    unfold hdrLen
    split_ifs <;> simp
  have h2H : 2 ≤ hdrLen p := by rcases hH with h | h <;> omega
  have h3H : hdrLen p ≤ 3 := by rcases hH with h | h <;> omega
  have hL := wire_frame_length p
  have hN6 : 6 ≤ N := by omega
  intro k
  induction k with
  | zero => intro h; omega
  | succ k ih =>
    intro hk1 hkL
    by_cases hk0 : k = 0
    · subst hk0
      rw [if_pos (by omega : 0 + 1 < hdrLen p)]
      exact rt_base N p hp1 hfit
    · have hihk := ih (by omega) (by omega)
      have hWtake : (wire_frame p).take (k + 1) =
          (wire_frame p).take k ++ [(wire_frame p).getD k 0] :=
        take_succ_getD (wire_frame p) k (by omega)
      conv_lhs => rw [hWtake]
      rw [feed_snoc N (BinCrc.new N) ((wire_frame p).take k)
        ((wire_frame p).getD k 0)]
      rw [hihk]
      dsimp only
      by_cases hkH : k < hdrLen p
      · rw [if_pos hkH]
        by_cases hkH1 : k < hdrLen p - 1
        · rw [rt_skip N p k (hdrLen p - k) (by omega) (by omega) (by omega)]
          rw [if_pos (by omega : k + 1 < hdrLen p)]
          have hbl3 : hdrLen p - k - 1 = hdrLen p - (k + 1) := by omega
          rw [hbl3]
          rfl
        · have hkk : k + 1 = hdrLen p := by omega
          rw [hkk]
          rw [if_neg (lt_irrefl (hdrLen p))]
          have hkeq : k = hdrLen p - 1 := by omega
          rw [hkeq]
          have hbl1 : hdrLen p - (hdrLen p - 1) = 1 := by omega
          rw [hbl1]
          rw [rt_hdr_scan N p hp1 hp512 hfit]
          rfl
      · rw [if_neg hkH]
        rw [rt_skip N p k ((wire_frame p).length - k) (by omega) (by omega)
          (by omega)]
        rw [if_neg (by omega : ¬k + 1 < hdrLen p)]
        have hbl2 : (wire_frame p).length - k - 1 =
            (wire_frame p).length - (k + 1) := by omega
        rw [hbl2]
        rfl

theorem rt_slice (N : ℕ) (p : List ℕ) (hp1 : 1 ≤ p.length)
    (hfit : (wire_frame p).length ≤ N) :
    (((wire_frame p).take (wire_frame p).length ++
        List.replicate (N - (wire_frame p).length) 0).drop (hdrLen p)).take
      p.length = p := by
  have hH : hdrLen p = 2 ∨ hdrLen p = 3 := by
    unfold hdrLen
    split_ifs <;> simp
  have h2H : 2 ≤ hdrLen p := by rcases hH with h | h <;> omega
  have hL := wire_frame_length p
  have houtlen : ((wire_frame p).take (wire_frame p).length ++
      List.replicate (N - (wire_frame p).length) 0).length = N :=
    prefixBuf_length _ _ _ hfit (le_refl _)
  apply eq_of_getD
  · rw [List.length_take, List.length_drop, houtlen]
    omega
  · intro i hi
    rw [List.length_take, List.length_drop, houtlen] at hi
    have hi' : i < p.length := by omega
    rw [drop_take_getD _ (hdrLen p) p.length i hi' (by rw [houtlen]; omega)]
    rw [prefixBuf_getD (wire_frame p) (wire_frame p).length (hdrLen p + i) N
      (by omega) (le_refl _)]
    exact wire_getD_payload p i hi'

theorem rt_final (N : ℕ) (p : List ℕ) (hp1 : 1 ≤ p.length)
    (hp512 : p.length ≤ 512) (hfit : (wire_frame p).length ≤ N) :
    (eat_byte N ⟨(wire_frame p).take ((wire_frame p).length - 1) ++
          List.replicate (N - ((wire_frame p).length - 1)) 0, 0,
        (wire_frame p).length - 1, 1⟩
      ((wire_frame p).getD ((wire_frame p).length - 1) 0)).2 = [p] := by
  have hH : hdrLen p = 2 ∨ hdrLen p = 3 := by
    unfold hdrLen
    split_ifs <;> simp
  have h2H : 2 ≤ hdrLen p := by rcases hH with h | h <;> omega
  have h3H : hdrLen p ≤ 3 := by rcases hH with h | h <;> omega
  have hL := wire_frame_length p
  have hN6 : 6 ≤ N := by omega
  have hmain := eat_byte_eq_main N
    ⟨(wire_frame p).take ((wire_frame p).length - 1) ++
        List.replicate (N - ((wire_frame p).length - 1)) 0, 0,
      (wire_frame p).length - 1, 1⟩
    ((wire_frame p).getD ((wire_frame p).length - 1) 0) (by dsimp only; omega)
  dsimp only at hmain
  simp only [Nat.sub_zero] at hmain
  rw [if_neg (by omega : ¬(1:ℕ) < 1)] at hmain
  have hL1 : (wire_frame p).length - 1 + 1 = (wire_frame p).length := by omega
  have hbuf : ((wire_frame p).take ((wire_frame p).length - 1) ++
      List.replicate (N - ((wire_frame p).length - 1)) 0).set
        ((wire_frame p).length - 1)
        ((wire_frame p).getD ((wire_frame p).length - 1) 0) =
      (wire_frame p).take (wire_frame p).length ++
        List.replicate (N - (wire_frame p).length) 0 := by
    have h := prefixBuf_set (wire_frame p) ((wire_frame p).length - 1) N
      (by omega) (by omega)
    rw [hL1] at h
    exact h
  rw [hbuf] at hmain
  rw [hmain]
  dsimp only
  have houtlen : ((wire_frame p).take (wire_frame p).length ++
      List.replicate (N - (wire_frame p).length) 0).length = N :=
    prefixBuf_length _ _ _ hfit (le_refl _)
  by_cases hp255 : p.length ≤ 255
  · have hH2 : hdrLen p = 2 := by unfold hdrLen; rw [if_pos hp255]
    have hw := decode_window_1b N
      ⟨(wire_frame p).take (wire_frame p).length ++
          List.replicate (N - (wire_frame p).length) 0, 0,
        (wire_frame p).length - 1 + 1, 1⟩ p hp1 hp255 (by omega)
      (by dsimp only; rw [houtlen]; omega)
      (by
        intro i hi
        dsimp only
        rw [getD_idx_congr _ (0 + i) i (by omega)]
        exact prefixBuf_getD (wire_frame p) (wire_frame p).length i N
          (by omega) (le_refl _))
    have hd5 : (wire_frame p).length - 1 + 1 = p.length + 5 := by omega
    rw [← hd5] at hw
    simp only [scanLoop, hw]
    rw [show (wire_frame p).length - 1 + 1 - ((wire_frame p).length - 1 + 1) = 0
      from by omega]
    rw [show (wire_frame p).length - 1 = p.length + 3 + 1 from by omega]
    simp only [scanLoop, decode_zero]
    rw [show (0:ℕ) + 2 + p.length - (0 + 2) = p.length from by omega]
    rw [show (0:ℕ) + 2 = hdrLen p from by rw [hH2]]
    rw [rt_slice N p hp1 hfit]
    rfl
  · have hH3 : hdrLen p = 3 := by unfold hdrLen; rw [if_neg hp255]
    have hw := decode_window_2b N
      ⟨(wire_frame p).take (wire_frame p).length ++
          List.replicate (N - (wire_frame p).length) 0, 0,
        (wire_frame p).length - 1 + 1, 1⟩ p (by omega) (by omega) (by omega)
      (by dsimp only; rw [houtlen]; omega)
      (by
        intro i hi
        dsimp only
        rw [getD_idx_congr _ (0 + i) i (by omega)]
        rw [← wire_frame_eq_wire2 p hp255]
        exact prefixBuf_getD (wire_frame p) (wire_frame p).length i N
          (by omega) (le_refl _))
    have hd6 : (wire_frame p).length - 1 + 1 = p.length + 6 := by omega
    rw [← hd6] at hw
    simp only [scanLoop, hw]
    rw [show (wire_frame p).length - 1 + 1 - ((wire_frame p).length - 1 + 1) = 0
      from by omega]
    rw [show (wire_frame p).length - 1 = p.length + 4 + 1 from by omega]
    simp only [scanLoop, decode_zero]
    rw [show (0:ℕ) + 3 + p.length - (0 + 3) = p.length from by omega]
    rw [show (0:ℕ) + 3 = hdrLen p from by rw [hH3]]
    rw [rt_slice N p hp1 hfit]
    rfl

/-- C1 (amended): for payloads p with 1 <= len(p) <= 512 whose full wire
frame fits the decoder buffer (wire size <= N), the round trip holds:
size_hint reports exactly the wire size, commit_frame into a buffer of that
size succeeds and writes exactly the wire frame, and feeding those bytes one
at a time through eat_byte on a fresh decoder of capacity N invokes the sink
exactly once, with payload p.  The original claim's premise len(p) <= N is
not sufficient: the saturation reset destroys any frame whose wire size
exceeds N (see the counterexample). -/
theorem round_trip_amended (N : ℕ) (p : List ℕ) (hp1 : 1 ≤ p.length)
    (hp512 : p.length ≤ 512) (hfit : (wire_frame p).length ≤ N) :
    size_hint p.length = .ok (wire_frame p).length ∧
    commit_frame N p (List.replicate (wire_frame p).length 0) =
      (.ok (), wire_frame p) ∧
    (feed N (BinCrc.new N) (wire_frame p)).2 = [p] := by
  have hH : hdrLen p = 2 ∨ hdrLen p = 3 := by
    unfold hdrLen
    split_ifs <;> simp
  have h2H : 2 ≤ hdrLen p := by rcases hH with h | h <;> omega
  have h3H : hdrLen p ≤ 3 := by rcases hH with h | h <;> omega
  have hL := wire_frame_length p
  have hN6 : 6 ≤ N := by omega
  have hL1 : (wire_frame p).length - 1 + 1 = (wire_frame p).length := by omega
  refine ⟨?_, ?_, ?_⟩
  · unfold size_hint
    by_cases hp255 : p.length ≤ 255
    · have hH2 : hdrLen p = 2 := by unfold hdrLen; rw [if_pos hp255]
      rw [if_pos hp255, hL, hH2]
    · have hH3 : hdrLen p = 3 := by unfold hdrLen; rw [if_neg hp255]
      rw [if_neg hp255, if_pos ⟨by omega, hp512⟩, hL, hH3]
  · by_cases hp255 : p.length ≤ 255
    · have hH2 : hdrLen p = 2 := by unfold hdrLen; rw [if_pos hp255]
      rw [commit_eq_1b N p (List.replicate (wire_frame p).length 0) hp255
        (by rw [List.length_replicate]; omega)]
      rw [List.drop_eq_nil_of_le (by rw [List.length_replicate]; omega),
        List.append_nil]
    · have hH3 : hdrLen p = 3 := by unfold hdrLen; rw [if_neg hp255]
      rw [commit_eq_2b N p (List.replicate (wire_frame p).length 0) hp255
        ⟨by omega, by omega⟩ (by rw [List.length_replicate]; omega)]
      rw [List.drop_eq_nil_of_le (by rw [List.length_replicate]; omega),
        List.append_nil]
  · have hWfull : wire_frame p =
        (wire_frame p).take ((wire_frame p).length - 1) ++
          [(wire_frame p).getD ((wire_frame p).length - 1) 0] := by
      have h1 := take_succ_getD (wire_frame p) ((wire_frame p).length - 1)
        (by omega)
      rw [hL1, List.take_length] at h1
      exact h1
    conv_lhs => rw [hWfull]
    rw [feed_snoc]
    rw [rt_feed_take N p hp1 hp512 hfit ((wire_frame p).length - 1) (by omega)
      (by omega)]
    dsimp only
    rw [if_neg (by omega : ¬(wire_frame p).length - 1 < hdrLen p)]
    rw [show (wire_frame p).length - ((wire_frame p).length - 1) = 1 from by omega]
    rw [rt_final N p hp1 hp512 hfit]
    rfl

/-- Witness for C1 at N = 16, p = [170]: the hypotheses hold concretely and
the round trip emits exactly [[170]]. -/
theorem round_trip_amended_witness :
    (1 ≤ ([170] : List ℕ).length ∧ ([170] : List ℕ).length ≤ 512 ∧
      (wire_frame [170]).length ≤ 16) ∧
    (size_hint ([170] : List ℕ).length = .ok (wire_frame [170]).length ∧
      commit_frame 16 [170] (List.replicate (wire_frame [170]).length 0) =
        (.ok (), wire_frame [170]) ∧
      (feed 16 (BinCrc.new 16) (wire_frame [170])).2 = [[170]]) :=
  ⟨⟨by decide, by decide, by decide⟩,
    round_trip_amended 16 [170] (by decide) (by decide) (by decide)⟩
